import Mathlib

/-!
Verification of the Rift entity-component-system runtime core.

The definitions below are shallow embeddings of the C++ sources:

* `Rift.SparseSet` embeds `rift::internal::SparseSet`
  (src/Rift/internal/sparse_set.h, sparse_set.inl): a dense/sparse pair of
  growable vectors with a live count `n`.
* `Rift.EntityManager` embeds `rift::EntityManager` (src/Rift/entity.inl):
  parallel vectors `masks`, `index_versions`, a LIFO stack `free_indices`,
  per-family component pools (`rift::internal::Pool`, src/Rift/internal/pool.inl),
  the signature-keyed `index_caches`, and the pending-destroy set
  `indices_to_destroy`.

C++ machine details are rendered as follows: `std::bitset<128>` component
masks become `Nat` bitmasks manipulated with `|||`/`&&&`/`Nat.ldiff`;
`std::vector` indexing becomes `List.getD` (out-of-range reads never occur
on the assertion-free traces considered); `std::vector::resize` growth
appends default elements.
-/

set_option maxHeartbeats 1000000
set_option maxRecDepth 10000

namespace Rift

/-! ### SparseSet: embedding of rift::internal::SparseSet -/

/-- Embedding of `rift::internal::SparseSet` (src/Rift/internal/sparse_set.h):
`n` counts the live elements, `dense` stores them contiguously in
`dense[0..n)`, and `sparse[v]` stores the position of `v` inside `dense`. -/
structure SparseSet where
  n : Nat
  dense : List Nat
  sparse : List Nat
deriving Repr, DecidableEq

namespace SparseSet

/-- A default-constructed `SparseSet`: empty vectors, `n = 0`. -/
def empty : SparseSet := ⟨0, [], []⟩

/-- `SparseSet::size`. -/
def size (s : SparseSet) : Nat := s.n

/-- `SparseSet::contains`: `v < sparse.size() && sparse[v] < n && dense[sparse[v]] == v`. -/
def contains (s : SparseSet) (v : Nat) : Bool :=
  decide (v < s.sparse.length) &&
    (decide (s.sparse.getD v 0 < s.n) && (s.dense.getD (s.sparse.getD v 0) 0 == v))

/-- `SparseSet::insert`: grow `sparse` to `v + 1` and `dense` to `n + 1` when
needed (`std::vector::resize` zero-fills), then `sparse[v] = n; dense[n] = v; ++n`. -/
def insert (s : SparseSet) (v : Nat) : SparseSet :=
  let sparse :=
    if s.sparse.length ≤ v then s.sparse ++ List.replicate (v + 1 - s.sparse.length) 0
    else s.sparse
  let dense :=
    if s.dense.length ≤ s.n then s.dense ++ List.replicate (s.n + 1 - s.dense.length) 0
    else s.dense
  { n := s.n + 1, dense := dense.set s.n v, sparse := sparse.set v s.n }

/-- `SparseSet::erase`: `dense[sparse[v]] = dense[n-1]; sparse[dense[n-1]] = sparse[v]; --n`
(the second statement reads `dense[n-1]` after the first write, as in the source). -/
def erase (s : SparseSet) (v : Nat) : SparseSet :=
  { n := s.n - 1,
    dense := s.dense.set (s.sparse.getD v 0) (s.dense.getD (s.n - 1) 0),
    sparse := s.sparse.set
      ((s.dense.set (s.sparse.getD v 0) (s.dense.getD (s.n - 1) 0)).getD (s.n - 1) 0)
      (s.sparse.getD v 0) }

/-- `SparseSet::clear`: `n = 0`, both vectors untouched. -/
def clear (s : SparseSet) : SparseSet := { s with n := 0 }

/-- The sequence a range-for over the set visits: `dense[0..n)`. -/
def toList (s : SparseSet) : List Nat := s.dense.take s.n

/-- Representation invariant of the dense/sparse construction. -/
def WF (s : SparseSet) : Prop :=
  s.n ≤ s.dense.length ∧
    ∀ i, i < s.n →
      s.dense.getD i 0 < s.sparse.length ∧ s.sparse.getD (s.dense.getD i 0) 0 = i

end SparseSet

/-! ### SparseSet operation traces -/

/-- An operation on a `SparseSet`: `insert(v)` or `erase(v)`. -/
inductive SOp where
  | ins (v : Nat)
  | del (v : Nat)
deriving Repr, DecidableEq

/-- Execute one operation. -/
def sstep (s : SparseSet) : SOp → SparseSet
  | SOp.ins v => s.insert v
  | SOp.del v => s.erase v

/-- The operation's precondition, as asserted by the source
(`assert(!contains(v))` in `insert`, `assert(contains(v))` in `erase`). -/
def spre (s : SparseSet) : SOp → Bool
  | SOp.ins v => !s.contains v
  | SOp.del v => s.contains v

/-- Every operation of the trace satisfies its precondition at its point. -/
def svalidTrace (s : SparseSet) : List SOp → Bool
  | [] => true
  | op :: ops => spre s op && svalidTrace (sstep s op) ops

/-- Run a trace from the empty set. -/
def srun (ops : List SOp) : SparseSet := ops.foldl sstep SparseSet.empty

/-- The mathematical set of integers a trace leaves present. -/
def smodelFrom (F : Finset Nat) : List SOp → Finset Nat
  | [] => F
  | SOp.ins v :: ops => smodelFrom (insert v F) ops
  | SOp.del v :: ops => smodelFrom (F.erase v) ops

def smodel (ops : List SOp) : Finset Nat := smodelFrom ∅ ops

/-! ### ComponentMask (std::bitset<128>) as a Nat bitmask -/

/-- `rift::config::MAX_COMPONENT_TYPES` (src/Rift/config/config.h): 128. -/
def MAX_COMPONENTS : Nat := 128

/-- `std::bitset::test`. -/
def maskTest (m f : Nat) : Bool := m.testBit f

/-- `std::bitset::set(f)`. -/
def maskSet (m f : Nat) : Nat := m ||| 2 ^ f

/-- `std::bitset::reset(f)`. -/
def maskReset (m f : Nat) : Nat := Nat.ldiff m (2 ^ f)

/-- The code's signature filter `(mask & sig) == sig`. -/
def maskSubset (sig m : Nat) : Bool := (m &&& sig) == sig

/-! ### EntityManager: embedding of rift::EntityManager (src/Rift/entity.inl) -/

/-- Embedding of `rift::EntityManager`. `α` is the component payload type stored
in the pools (`rift::internal::Pool`); a missing / null pool is the empty list. -/
structure EntityManager (α : Type) where
  free_indices : List Nat := []
  masks : List Nat := []
  index_versions : List Nat := []
  component_pools : List (List α) := []
  index_caches : List (Nat × SparseSet) := []
  indices_to_destroy : SparseSet := SparseSet.empty

namespace EntityManager

variable {α : Type}

def empty : EntityManager α := {}

/-- `EntityManager::create_entity` (entity.inl 80-95): pop the free stack, or
append a fresh slot with mask `0` and version `1`. Returns the new handle
`(index, version)` alongside the new state. -/
def create_entity (m : EntityManager α) : EntityManager α × Nat × Nat :=
  match m.free_indices with
  | [] =>
      ({ m with masks := m.masks ++ [0], index_versions := m.index_versions ++ [1] },
        m.masks.length, 1)
  | index :: rest =>
      ({ m with free_indices := rest }, index, m.index_versions.getD index 0)

/-- `rift::internal::Pool<C>::insert` (pool.inl 4-10): grow to `index + 1`
(`resize` default-fills) when the slot is absent, then assign. -/
def poolInsert [Inhabited α] (p : List α) (index : Nat) (x : α) : List α :=
  (if p.length ≤ index then p ++ List.replicate (index + 1 - p.length) default else p).set index x

/-- `rift::internal::Pool<C>::at` (pool.inl 19-24). -/
def poolAt [Inhabited α] (p : List α) (index : Nat) : α := p.getD index default

/-- First statement of `EntityManager::add_component` (entity.inl 223):
`auto& mask = masks[index].set(family_id);` — the mask bit is set here,
before the pool is grown. -/
def add_component_mask (m : EntityManager α) (family index : Nat) : EntityManager α :=
  { m with masks := m.masks.set index (maskSet (m.masks.getD index 0) family) }

/-- Pool phase of `add_component` (entity.inl 225-233): resize the pool vector
to `family + 1` if needed, create the pool if null, insert the component. -/
def add_component_pool [Inhabited α] (m : EntityManager α) (family index : Nat) (x : α) :
    EntityManager α :=
  let pools :=
    if m.component_pools.length ≤ family
    then m.component_pools ++ List.replicate (family + 1 - m.component_pools.length) []
    else m.component_pools
  { m with component_pools := pools.set family (poolInsert (pools.getD family []) index x) }

/-- Cache phase of `add_component` (entity.inl 237-240): insert the index into
every cache whose signature tests the family and is a subset of the (already
updated) mask. -/
def add_component_caches (m : EntityManager α) (family index : Nat) : EntityManager α :=
  { m with index_caches := m.index_caches.map fun c =>
      if maskTest c.1 family && maskSubset c.1 (m.masks.getD index 0)
      then (c.1, c.2.insert index) else c }

/-- `EntityManager::add_component` (entity.inl 219-241), in source statement
order: mask first, then pool, then caches. -/
def add_component [Inhabited α] (m : EntityManager α) (family index : Nat) (x : α) :
    EntityManager α :=
  add_component_caches (add_component_pool (add_component_mask m family index) family index x)
    family index

/-- `EntityManager::replace_component` (entity.inl 243-248) together with
`Pool::replace` (pool.inl 12-17): overwrite the pool slot; mask and caches
untouched. -/
def replace_component (m : EntityManager α) (family index : Nat) (x : α) : EntityManager α :=
  { m with
    component_pools :=
      m.component_pools.set family ((m.component_pools.getD family []).set index x) }

/-- `EntityManager::remove_component` (entity.inl 250-264): erase the index
from every cache whose signature tests the family and is a subset of the
(pre-reset) mask, then reset the mask bit. -/
def remove_component (m : EntityManager α) (family index : Nat) : EntityManager α :=
  { m with
    index_caches := m.index_caches.map fun c =>
      if maskTest c.1 family && maskSubset c.1 (m.masks.getD index 0)
      then (c.1, c.2.erase index) else c,
    masks := m.masks.set index (maskReset (m.masks.getD index 0) family) }

/-- `EntityManager::destroy` (entity.inl 307-311): guarded set-insert into
`indices_to_destroy`. -/
def destroy (m : EntityManager α) (index : Nat) : EntityManager α :=
  if m.indices_to_destroy.contains index then m
  else { m with indices_to_destroy := m.indices_to_destroy.insert index }

/-- `EntityManager::erase_caches_for` (entity.inl 313-320). -/
def erase_caches_for (m : EntityManager α) (index : Nat) : EntityManager α :=
  { m with index_caches := m.index_caches.map fun c =>
      if maskSubset c.1 (m.masks.getD index 0) then (c.1, c.2.erase index) else c }

/-- One iteration of the `update` loop (entity.inl 147-152): erase caches,
clear the mask, bump the version, push the slot on the free stack. -/
def update_one (m : EntityManager α) (index : Nat) : EntityManager α :=
  { erase_caches_for m index with
    masks := m.masks.set index 0,
    index_versions := m.index_versions.set index (m.index_versions.getD index 0 + 1),
    free_indices := index :: m.free_indices }

/-- `EntityManager::update` (entity.inl 145-154): process every pending index,
then clear the pending set. -/
def update (m : EntityManager α) : EntityManager α :=
  let m1 := m.indices_to_destroy.toList.foldl update_one m
  { m1 with indices_to_destroy := m1.indices_to_destroy.clear }

/-- `EntityManager::clear` (entity.inl 156-165). -/
def clear (m : EntityManager α) : EntityManager α :=
  { free_indices := [], masks := [], index_versions := [],
    component_pools := [], index_caches := [],
    indices_to_destroy := m.indices_to_destroy.clear }

/-- `EntityManager::contains_cache_for` (entity.inl 322-325). -/
def contains_cache_for (m : EntityManager α) (sig : Nat) : Bool :=
  (m.index_caches.find? fun c => c.1 == sig).isSome

/-- `EntityManager::create_cache_for` (entity.inl 327-335): scan `masks` once,
inserting every matching index in ascending order, and store the new cache. -/
def create_cache_for (m : EntityManager α) (sig : Nat) : EntityManager α :=
  { m with index_caches := m.index_caches ++
      [(sig, (List.range m.masks.length).foldl
        (fun s i => if maskSubset sig (m.masks.getD i 0) then s.insert i else s)
        SparseSet.empty)] }

/-- The cache-resolution prefix shared by `for_entities_with` and
`par_for_entities_with` (entity.inl 192-217): build the cache on a miss. -/
def resolve_cache_for (m : EntityManager α) (sig : Nat) : EntityManager α :=
  if m.contains_cache_for sig then m else m.create_cache_for sig

/-- `EntityManager::number_of_entities_with` (entity.inl 177-190): the cache's
size when one exists, otherwise a `count_if` scan over `masks`; the state is
not modified (the member function is `const`). -/
def number_of_entities_with (m : EntityManager α) (sig : Nat) : Nat :=
  match m.index_caches.find? fun c => c.1 == sig with
  | some c => c.2.size
  | none => m.masks.countP fun mask => maskSubset sig mask

/-- `EntityManager::number_of_entities_to_destroy` (entity.inl 172-175). -/
def number_of_entities_to_destroy (m : EntityManager α) : Nat := m.indices_to_destroy.size

/-- `EntityManager::marked_for_destruction` (entity.inl 297-300). -/
def marked_for_destruction (m : EntityManager α) (index : Nat) : Bool :=
  m.indices_to_destroy.contains index

/-- `EntityManager::valid_id` (entity.inl 302-305): `index_versions[id.index()] == id.version()`. -/
def valid_id (m : EntityManager α) (index version : Nat) : Bool :=
  m.index_versions.getD index 0 == version

/-- `EntityManager::component_mask_for` (entity.inl 292-295). -/
def component_mask_for (m : EntityManager α) (index : Nat) : Nat := m.masks.getD index 0

/-- `EntityManager::number_of_reusable_entities` (entity.inl 167-170). -/
def number_of_reusable_entities (m : EntityManager α) : Nat := m.free_indices.length

/-- `EntityManager::size` (entity.inl 125-128). -/
def size (m : EntityManager α) : Nat := m.masks.length - m.free_indices.length

/-- Component-copy loop of `create_copy_of` (entity.inl 116-120): for every
family below `mask.size()` (= 128) present in the mask, insert the original's
component at the clone's slot. -/
def copy_components [Inhabited α] (pools : List (List α)) (mask orig clone : Nat) :
    List (List α) :=
  (List.range MAX_COMPONENTS).foldl
    (fun ps family =>
      if maskTest mask family
      then ps.set family (poolInsert (ps.getD family []) clone (poolAt (ps.getD family []) orig))
      else ps)
    pools

/-- `EntityManager::create_copy_of` (entity.inl 97-123): create an entity,
copy the mask, insert the clone into every cache whose signature is a subset
of the copied mask, copy all components. -/
def create_copy_of [Inhabited α] (m : EntityManager α) (orig : Nat) :
    EntityManager α × Nat × Nat :=
  let r := m.create_entity
  let m1 := r.1
  let clone := r.2.1
  let mask := m1.masks.getD orig 0
  let m2 : EntityManager α := { m1 with masks := m1.masks.set clone mask }
  let m3 : EntityManager α :=
    { m2 with
      index_caches := m2.index_caches.map fun (c : Nat × SparseSet) =>
        if maskSubset c.1 mask then (c.1, c.2.insert clone) else c }
  ({ m3 with component_pools := copy_components m3.component_pools mask orig clone },
    clone, r.2.2)

end EntityManager

/-- A public `EntityManager` call (through the `Entity` proxy where the call
takes a handle). `copy`/`destroy` carry the handle's version so the validity
assertion can be stated. -/
inductive Op (α : Type) where
  | create
  | copy (orig version : Nat)
  | add (family index : Nat) (x : α)
  | repl (family index : Nat) (x : α)
  | remove (family index : Nat)
  | destroy (index version : Nat)
  | update
  | clear
  | query (sig : Nat)
  | count (sig : Nat)

namespace EntityManager

/-- A handle `(index, version)` the manager has issued and not yet recycled:
in range, version matches, slot not on the free stack. -/
def live (m : EntityManager α) (index version : Nat) : Bool :=
  decide (index < m.index_versions.length) &&
    (m.valid_id index version && !(decide (index ∈ m.free_indices)))

/-- Execute one public call. -/
def step [Inhabited α] (m : EntityManager α) : Op α → EntityManager α
  | Op.create => m.create_entity.1
  | Op.copy orig _ => (m.create_copy_of orig).1
  | Op.add f i x => m.add_component f i x
  | Op.repl f i x => m.replace_component f i x
  | Op.remove f i => m.remove_component f i
  | Op.destroy i _ => m.destroy i
  | Op.update => m.update
  | Op.clear => m.clear
  | Op.query sig => m.resolve_cache_for sig
  | Op.count _ => m

/-- The call's precondition: the conjunction of the assertions the `Entity`
proxy and the manager check on that call path (assert-free execution).
Signatures built by `signature_for<First, Rest...>` are nonzero with all
bits below `MAX_COMPONENTS`. -/
def pre [Inhabited α] (m : EntityManager α) : Op α → Bool
  | Op.create => true
  | Op.copy orig version => m.live orig version
  | Op.add f i _ => decide (i < m.masks.length) && (!(decide (i ∈ m.free_indices)) &&
      (!(maskTest (m.masks.getD i 0) f) && decide (f < MAX_COMPONENTS)))
  | Op.repl f i _ => decide (i < m.masks.length) && (!(decide (i ∈ m.free_indices)) &&
      maskTest (m.masks.getD i 0) f)
  | Op.remove f i => decide (i < m.masks.length) && (!(decide (i ∈ m.free_indices)) &&
      maskTest (m.masks.getD i 0) f)
  | Op.destroy i version => m.live i version
  | Op.update => true
  | Op.clear => true
  | Op.query sig => !(sig == 0) && decide (sig < 2 ^ MAX_COMPONENTS)
  | Op.count sig => !(sig == 0) && decide (sig < 2 ^ MAX_COMPONENTS)

/-- Every call of the trace satisfies its precondition at its point. -/
def validTrace [Inhabited α] (m : EntityManager α) : List (Op α) → Bool
  | [] => true
  | op :: ops => m.pre op && validTrace (m.step op) ops

/-- Run a trace from a default-constructed manager. -/
def run [Inhabited α] (ops : List (Op α)) : EntityManager α := ops.foldl step empty

/-! ### The manager invariant -/

/-- The internal invariant of `EntityManager` that holds between public calls:
parallel-vector lengths agree, the free stack holds in-range dead slots with
zero masks, masks use only the 128 bitset positions, every mask bit is backed
by a long-enough pool, every cache is a well-formed `SparseSet` with a nonzero
signature that contains exactly the matching slots, and the pending-destroy
set is a well-formed set of in-range non-free slots. -/
structure Inv (m : EntityManager α) : Prop where
  len_eq : m.index_versions.length = m.masks.length
  free_nodup : m.free_indices.Nodup
  free_lt : ∀ i ∈ m.free_indices, i < m.masks.length
  free_mask : ∀ i ∈ m.free_indices, m.masks.getD i 0 = 0
  mask_bits : ∀ i f, MAX_COMPONENTS ≤ f → (m.masks.getD i 0).testBit f = false
  pool_len : ∀ i f, (m.masks.getD i 0).testBit f = true →
    i < (m.component_pools.getD f []).length
  cache_wf : ∀ c ∈ m.index_caches, SparseSet.WF c.2
  cache_sig : ∀ c ∈ m.index_caches, c.1 ≠ 0
  cache_coh : ∀ c ∈ m.index_caches, ∀ v, c.2.contains v = maskSubset c.1 (m.masks.getD v 0)
  pend_wf : SparseSet.WF m.indices_to_destroy
  pend_lt : ∀ i, m.indices_to_destroy.contains i = true → i < m.masks.length
  pend_free : ∀ i, m.indices_to_destroy.contains i = true → i ∉ m.free_indices

/-! ### update -/

/-- The `Inv` fields that are carried through the `update` loop (the pending
set and the free-stack uniqueness are restored only once the loop finishes). -/
structure UInv (m : EntityManager α) : Prop where
  len_eq : m.index_versions.length = m.masks.length
  free_lt : ∀ i ∈ m.free_indices, i < m.masks.length
  free_mask : ∀ i ∈ m.free_indices, m.masks.getD i 0 = 0
  mask_bits : ∀ i f, MAX_COMPONENTS ≤ f → (m.masks.getD i 0).testBit f = false
  pool_len : ∀ i f, (m.masks.getD i 0).testBit f = true →
    i < (m.component_pools.getD f []).length
  cache_wf : ∀ c ∈ m.index_caches, SparseSet.WF c.2
  cache_sig : ∀ c ∈ m.index_caches, c.1 ≠ 0
  cache_coh : ∀ c ∈ m.index_caches, ∀ v, c.2.contains v = maskSubset c.1 (m.masks.getD v 0)

end EntityManager

/-! ### Component-family registration (src/Rift/internal/component.h) -/

/-- Models `BaseComponent::family_counter` (internal/component.h 17) across the
first-use calls of `Component<C>::family()` for `n` distinct component types:
each call returns `family_counter++`. Result: the list of assigned family ids
in registration order, and the final counter. -/
def assignFamilies (n : Nat) : List Nat × Nat :=
  (List.range n).foldl (fun acc _ => (acc.1 ++ [acc.2], acc.2 + 1)) ([], 0)

/-- The registration assertion `assert(family_id < MAX_COMPONENTS)`
(internal/component.h 27), checked on the id just assigned. -/
def familyAssertOk (id : Nat) : Bool := decide (id < MAX_COMPONENTS)

/-! ### Entity handles (src/Rift/entity.h) -/

/-- `Entity::ID` (entity.h 27-47): a packed 64-bit value, low 32 bits the
index, high 32 bits the version; default-constructed `m_number` is 0 and
`INVALID_ID` is the default-constructed id. -/
structure EntityId where
  number : Nat := 0
deriving Repr, DecidableEq

/-- `Entity::ID::index()`: `m_number & 0xFFFFFFFF`. -/
def EntityId.index (id : EntityId) : Nat := id.number % 2 ^ 32

/-- `Entity::ID::version()`: `m_number >> 32`. -/
def EntityId.version (id : EntityId) : Nat := id.number / 2 ^ 32

/-- `Entity::ID(index, version)`: `uint64(index) | uint64(version) << 32`. -/
def EntityId.make (index version : Nat) : EntityId :=
  ⟨index % 2 ^ 32 ||| (version % 2 ^ 32) * 2 ^ 32⟩

/-- `Entity::INVALID_ID`: the default-constructed id. -/
def INVALID_ID : EntityId := {}

/-- The `rift::Entity` handle (entity.h 105-117): a non-owning manager pointer
(`none` models `nullptr`, `some p` an address) and the id; the defaulted
members are `manager = nullptr` and `uid = INVALID_ID`. -/
structure EntityHandle where
  manager : Option Nat := none
  uid : EntityId := INVALID_ID
deriving Repr, DecidableEq

/-- A default-constructed `Entity`. -/
def defaultEntity : EntityHandle := {}

/-- `Entity::valid` (entity.inl 13-16): `manager && manager->valid_id(uid)`;
`deref` supplies the `valid_id` lookup of the manager living at an address, so
the null case returns false without consulting any manager. -/
def EntityHandle.validWith (deref : Nat → EntityId → Bool) (e : EntityHandle) : Bool :=
  match e.manager with
  | none => false
  | some p => deref p e.uid

/-- `Entity::operator bool` (entity.inl 18-21): forwards to `valid()`. -/
def EntityHandle.boolConv (deref : Nat → EntityId → Bool) (e : EntityHandle) : Bool :=
  e.validWith deref

/-- `Entity::operator==` (entity.h 100-103): manager pointers equal and the
packed ids equal (via `!(a < b) && !(b < a)` on the 64-bit numbers). -/
def EntityHandle.beqE (a b : EntityHandle) : Bool :=
  a.manager == b.manager && a.uid.number == b.uid.number

/-! ### Concrete traces used as witnesses -/

def c1ops : List (Op Nat) :=
  [Op.create, Op.create, Op.add 0 0 5, Op.add 1 0 7, Op.add 0 1 3, Op.query 1,
   Op.query 3, Op.add 1 1 9, Op.remove 1 0, Op.destroy 0 1, Op.update, Op.query 2]

def c2ops : List (Op Nat) := [Op.create, Op.create, Op.add 0 1 4]

def c4ops : List (Op Nat) := [Op.create, Op.create, Op.add 0 0 2, Op.query 1]

def c5ops : List (Op Nat) :=
  [Op.create, Op.add 0 0 5, Op.add 1 0 7, Op.query 1, Op.query 3]

def c6ops : List (Op Nat) := [Op.create]

def c9m : EntityManager Nat := EntityManager.run [Op.create]

def c3m : EntityManager Nat := EntityManager.run [Op.create, Op.add 0 0 5]

def c7ops : List SOp :=
  [SOp.ins 1, SOp.ins 2, SOp.ins 3, SOp.ins 4, SOp.ins 5, SOp.ins 6,
   SOp.del 4, SOp.del 3, SOp.del 1]

/-! ## Theorems -/

/-! ### List indexing helpers -/

theorem getD_set_eq {α : Type _} (l : List α) (i : Nat) (a d : α) (h : i < l.length) :
    (l.set i a).getD i d = a := by
  simp [List.getD_eq_getElem?_getD, List.getElem?_set_self', h]

theorem getD_set_ne {α : Type _} (l : List α) (i j : Nat) (a d : α) (h : i ≠ j) :
    (l.set i a).getD j d = l.getD j d := by
  simp [List.getD_eq_getElem?_getD, List.getElem?_set_ne h]

theorem getD_append_left {α : Type _} (l l' : List α) (i : Nat) (d : α) (h : i < l.length) :
    (l ++ l').getD i d = l.getD i d := by
  simp [List.getD_eq_getElem?_getD, List.getElem?_append, h]

theorem getD_concat_length {α : Type _} (l : List α) (x d : α) :
    (l ++ [x]).getD l.length d = x := by
  simp [List.getD_eq_getElem?_getD]

theorem getD_of_length_le {α : Type _} (l : List α) (i : Nat) (d : α) (h : l.length ≤ i) :
    l.getD i d = d := by
  simp [List.getD_eq_getElem?_getD, List.getElem?_eq_none, h]

theorem getD_append_replicate {α : Type _} (l : List α) (k i : Nat) (d : α) :
    (l ++ List.replicate k d).getD i d = l.getD i d := by
  rcases Nat.lt_or_ge i l.length with h | h
  · exact getD_append_left l _ i d h
  · rw [getD_of_length_le l i d h]
    rcases Nat.lt_or_ge i (l.length + k) with h2 | h2
    · have : (l ++ List.replicate k d)[i]? = some d := by
        rw [List.getElem?_append_right h]
        simp [List.getElem?_replicate]
        omega
      simp [List.getD_eq_getElem?_getD, this]
    · apply getD_of_length_le
      simp
      omega

theorem getD_eq_getElem {α : Type _} (l : List α) (i : Nat) (d : α) (h : i < l.length) :
    l.getD i d = l[i] := by
  simp [List.getD_eq_getElem?_getD, List.getElem?_eq_getElem h]

namespace SparseSet

theorem wf_empty : WF empty := by
  constructor
  · simp [empty]
  · intro i hi
    simp [empty] at hi

theorem contains_iff (s : SparseSet) (v : Nat) :
    s.contains v = true ↔
      v < s.sparse.length ∧ s.sparse.getD v 0 < s.n ∧
        s.dense.getD (s.sparse.getD v 0) 0 = v := by
  simp [contains, and_assoc]

theorem wf_clear (s : SparseSet) : WF s.clear := by
  refine ⟨Nat.zero_le _, ?_⟩
  intro i hi
  simp [clear] at hi

theorem contains_clear (s : SparseSet) (v : Nat) : s.clear.contains v = false := by
  rw [Bool.eq_false_iff]
  intro h
  rcases (contains_iff _ _).1 h with ⟨_, h2, _⟩
  simp [clear] at h2

theorem size_empty : empty.size = 0 := rfl

theorem contains_empty (v : Nat) : empty.contains v = false := by
  rw [Bool.eq_false_iff]
  intro h
  rcases (contains_iff _ _).1 h with ⟨h1, _, _⟩
  simp [empty] at h1

theorem length_toList (s : SparseSet) (hwf : WF s) : s.toList.length = s.size := by
  simp [toList, size, List.length_take, Nat.min_eq_left hwf.1]

theorem mem_toList_iff (s : SparseSet) (hwf : WF s) (v : Nat) :
    v ∈ s.toList ↔ s.contains v = true := by
  obtain ⟨hn, hinv⟩ := hwf
  constructor
  · intro hv
    rcases List.mem_iff_getElem.1 hv with ⟨i, hi, hget⟩
    have hilen : i < s.n := by
      have := hi
      simp [toList, List.length_take] at this
      omega
    have hidx : i < s.dense.length := Nat.lt_of_lt_of_le hilen hn
    have hval : s.dense.getD i 0 = v := by
      rw [getD_eq_getElem _ _ _ hidx]
      rw [← hget]
      simp [toList]
    rcases hinv i hilen with ⟨hb, hs⟩
    rw [hval] at hb hs
    exact (contains_iff s v).2 ⟨hb, by rw [hs]; exact hilen, by rw [hs, hval]⟩
  · intro hc
    rcases (contains_iff s v).1 hc with ⟨hv, hj, hdj⟩
    apply List.mem_iff_getElem.2
    have hjlen : s.sparse.getD v 0 < s.toList.length := by
      have hlen : s.toList.length = s.n := by
        simp [toList, List.length_take, Nat.min_eq_left hn]
      rw [hlen]
      exact hj
    refine ⟨s.sparse.getD v 0, hjlen, ?_⟩
    have hjd : s.sparse.getD v 0 < s.dense.length := Nat.lt_of_lt_of_le hj hn
    have hts : s.toList.get ⟨s.sparse.getD v 0, hjlen⟩ =
        s.dense.get ⟨s.sparse.getD v 0, hjd⟩ := by
      simp [toList]
    show s.toList.get ⟨s.sparse.getD v 0, hjlen⟩ = v
    rw [hts, List.get_eq_getElem, ← getD_eq_getElem _ _ 0 hjd]
    exact hdj

theorem nodup_toList (s : SparseSet) (hwf : WF s) : s.toList.Nodup := by
  obtain ⟨hn, hinv⟩ := hwf
  rw [List.nodup_iff_injective_get]
  intro ⟨i, hi⟩ ⟨j, hj⟩ hij
  have hi' : i < s.n := by
    have := hi; simp [toList, List.length_take] at this; omega
  have hj' : j < s.n := by
    have := hj; simp [toList, List.length_take] at this; omega
  have hig : s.toList.get ⟨i, hi⟩ = s.dense.getD i 0 := by
    rw [getD_eq_getElem _ _ _ (Nat.lt_of_lt_of_le hi' hn)]
    simp [toList]
  have hjg : s.toList.get ⟨j, hj⟩ = s.dense.getD j 0 := by
    rw [getD_eq_getElem _ _ _ (Nat.lt_of_lt_of_le hj' hn)]
    simp [toList]
  have heq : s.dense.getD i 0 = s.dense.getD j 0 := by rw [← hig, ← hjg, hij]
  have h1 := (hinv i hi').2
  have h2 := (hinv j hj').2
  rw [heq] at h1
  rw [h1] at h2
  exact Fin.ext h2

theorem size_insert (s : SparseSet) (v : Nat) : (s.insert v).size = s.size + 1 := rfl

theorem size_erase (s : SparseSet) (v : Nat) : (s.erase v).size = s.size - 1 := rfl

theorem size_clear (s : SparseSet) : s.clear.size = 0 := rfl

theorem wf_insert (s : SparseSet) (v : Nat) (hwf : WF s) (hnc : s.contains v = false) :
    WF (s.insert v) := by
  obtain ⟨hn, hinv⟩ := hwf
  have hncontains : ¬(v < s.sparse.length ∧ s.sparse.getD v 0 < s.n ∧
      s.dense.getD (s.sparse.getD v 0) 0 = v) := by
    intro h
    rw [(contains_iff s v).2 h] at hnc
    exact Bool.noConfusion hnc
  set S1 := if s.sparse.length ≤ v then s.sparse ++ List.replicate (v + 1 - s.sparse.length) 0
    else s.sparse with hS1
  set D1 := if s.dense.length ≤ s.n then s.dense ++ List.replicate (s.n + 1 - s.dense.length) 0
    else s.dense with hD1
  have hS1getD : ∀ w, S1.getD w 0 = s.sparse.getD w 0 := by
    intro w
    rw [hS1]
    split
    · exact getD_append_replicate _ _ _ _
    · rfl
  have hS1len : s.sparse.length ≤ S1.length := by
    rw [hS1]; split <;> simp
  have hvS1 : v < S1.length := by
    rw [hS1]
    split
    · simp; omega
    · omega
  have hD1getD : ∀ i, i < s.n → D1.getD i 0 = s.dense.getD i 0 := by
    intro i hi
    rw [hD1]
    split
    · exact getD_append_left _ _ _ _ (Nat.lt_of_lt_of_le hi hn)
    · rfl
  have hnD1 : s.n < D1.length := by
    rw [hD1]
    split
    · simp; omega
    · omega
  show (s.insert v).n ≤ (s.insert v).dense.length ∧ _
  rw [show s.insert v = ⟨s.n + 1, D1.set s.n v, S1.set v s.n⟩ from rfl]
  constructor
  · simp
    omega
  · intro i hi
    rcases Nat.lt_or_ge i s.n with hilt | hige
    · -- old element
      have hdi : (D1.set s.n v).getD i 0 = s.dense.getD i 0 := by
        rw [getD_set_ne _ _ _ _ _ (by omega), hD1getD i hilt]
      rcases hinv i hilt with ⟨hb, hs⟩
      have hne : s.dense.getD i 0 ≠ v := by
        intro heq
        exact hncontains ⟨heq ▸ hb, by rw [heq] at hs; rw [hs]; exact hilt,
          by rw [heq] at hs; rw [hs, heq]⟩
      constructor
      · rw [hdi]
        simp only [List.length_set]
        exact Nat.lt_of_lt_of_le hb hS1len
      · rw [hdi, getD_set_ne _ _ _ _ _ (Ne.symm hne), hS1getD]
        exact hs
    · -- the new element at position n
      have hi2 : i < s.n + 1 := hi
      have hieq : i = s.n := by omega
      subst hieq
      have hdi : (D1.set s.n v).getD s.n 0 = v := getD_set_eq _ _ _ _ hnD1
      constructor
      · rw [hdi]
        simpa using hvS1
      · rw [hdi, getD_set_eq _ _ _ _ hvS1]

theorem contains_insert (s : SparseSet) (v : Nat) (hwf : WF s) (hnc : s.contains v = false)
    (w : Nat) : (s.insert v).contains w = ((w == v) || s.contains w) := by
  obtain ⟨hn, hinv⟩ := hwf
  set S1 := if s.sparse.length ≤ v then s.sparse ++ List.replicate (v + 1 - s.sparse.length) 0
    else s.sparse with hS1
  set D1 := if s.dense.length ≤ s.n then s.dense ++ List.replicate (s.n + 1 - s.dense.length) 0
    else s.dense with hD1
  have hS1getD : ∀ u, S1.getD u 0 = s.sparse.getD u 0 := by
    intro u
    rw [hS1]
    split
    · exact getD_append_replicate _ _ _ _
    · rfl
  have hS1len : s.sparse.length ≤ S1.length := by
    rw [hS1]; split <;> simp
  have hvS1 : v < S1.length := by
    rw [hS1]
    split
    · simp; omega
    · omega
  have hD1getD : ∀ i, i < s.n → D1.getD i 0 = s.dense.getD i 0 := by
    intro i hi
    rw [hD1]
    split
    · exact getD_append_left _ _ _ _ (Nat.lt_of_lt_of_le hi hn)
    · rfl
  have hnD1 : s.n < D1.length := by
    rw [hD1]
    split
    · simp; omega
    · omega
  have hins : s.insert v = ⟨s.n + 1, D1.set s.n v, S1.set v s.n⟩ := rfl
  rw [Bool.eq_iff_iff]
  rw [hins, contains_iff]
  dsimp only
  simp only [Bool.or_eq_true, beq_iff_eq]
  rcases Decidable.em (w = v) with hwv | hwv
  · subst hwv
    constructor
    · intro _; left; rfl
    · intro _
      refine ⟨by simpa using hvS1, ?_, ?_⟩
      · rw [getD_set_eq _ _ _ _ hvS1]; omega
      · rw [getD_set_eq _ _ _ _ hvS1, getD_set_eq _ _ _ _ hnD1]
  · constructor
    · rintro ⟨hw, hk, hdk⟩
      right
      have hkval : (S1.set v s.n).getD w 0 = s.sparse.getD w 0 := by
        rw [getD_set_ne _ _ _ _ _ (fun h => hwv h.symm), hS1getD]
      rw [hkval] at hk hdk
      set k := s.sparse.getD w 0 with hkdef
      have hklt : k < s.n := by
        rcases Nat.lt_or_ge k s.n with h | h
        · exact h
        · exfalso
          have hkn : k = s.n := by omega
          rw [hkn, getD_set_eq _ _ _ _ hnD1] at hdk
          exact hwv hdk.symm
      have hdkval : (D1.set s.n v).getD k 0 = s.dense.getD k 0 := by
        rw [getD_set_ne _ _ _ _ _ (by omega), hD1getD k hklt]
      rw [hdkval] at hdk
      have hwlen : w < s.sparse.length := by
        by_contra hge
        have h0 : k = 0 := by
          rw [hkdef, getD_of_length_le _ _ _ (by omega)]
        rw [h0] at hdk hklt
        rcases hinv 0 hklt with ⟨hb, _⟩
        rw [hdk] at hb
        omega
      exact (contains_iff s w).2 ⟨hwlen, hklt, hdk⟩
    · intro h
      rcases h with h | h
      · exact absurd h hwv
      · rcases (contains_iff s w).1 h with ⟨hw, hk, hdk⟩
        have hkval : (S1.set v s.n).getD w 0 = s.sparse.getD w 0 := by
          rw [getD_set_ne _ _ _ _ _ (fun heq => hwv heq.symm), hS1getD]
        refine ⟨?_, ?_, ?_⟩
        · simp only [List.length_set]
          exact Nat.lt_of_lt_of_le hw hS1len
        · rw [hkval]; omega
        · rw [hkval, getD_set_ne _ _ _ _ _ (by omega), hD1getD _ hk]
          exact hdk

theorem erase_eq (s : SparseSet) (v : Nat) (hwf : WF s) (hc : s.contains v = true) :
    s.erase v = ⟨s.n - 1, s.dense.set (s.sparse.getD v 0) (s.dense.getD (s.n - 1) 0),
      s.sparse.set (s.dense.getD (s.n - 1) 0) (s.sparse.getD v 0)⟩ := by
  obtain ⟨hn, hinv⟩ := hwf
  rcases (contains_iff s v).1 hc with ⟨hv, hj, hdj⟩
  have hset : (s.dense.set (s.sparse.getD v 0) (s.dense.getD (s.n - 1) 0)).getD (s.n - 1) 0 =
      s.dense.getD (s.n - 1) 0 := by
    by_cases hjn : s.sparse.getD v 0 = s.n - 1
    · rw [hjn]
      exact getD_set_eq _ _ _ _ (by omega)
    · exact getD_set_ne _ _ _ _ _ hjn
  rw [erase, hset]

theorem wf_erase (s : SparseSet) (v : Nat) (hwf : WF s) (hc : s.contains v = true) :
    WF (s.erase v) := by
  have hrec := erase_eq s v hwf hc
  obtain ⟨hn, hinv⟩ := hwf
  rcases (contains_iff s v).1 hc with ⟨hv, hj, hdj⟩
  have hnpos : 0 < s.n := by omega
  rcases hinv (s.n - 1) (by omega) with ⟨hlast_lt, hslast⟩
  have hjlen : s.sparse.getD v 0 < s.dense.length := by omega
  have inj : ∀ a b, a < s.n → b < s.n →
      s.dense.getD a 0 = s.dense.getD b 0 → a = b := by
    intro a b ha hb heq
    have h1 := (hinv a ha).2
    have h2 := (hinv b hb).2
    rw [heq] at h1
    rw [h2] at h1
    exact h1.symm
  rw [hrec]
  refine ⟨by simp; omega, ?_⟩
  dsimp only
  intro i hi
  have hi' : i < s.n - 1 := hi
  by_cases hij : i = s.sparse.getD v 0
  · subst hij
    rw [getD_set_eq _ _ _ _ hjlen]
    refine ⟨by simpa using hlast_lt, ?_⟩
    rw [getD_set_eq _ _ _ _ hlast_lt]
  · rw [getD_set_ne _ _ _ _ _ (fun h => hij h.symm)]
    rcases hinv i (by omega) with ⟨hb, hs⟩
    have hne_last : s.dense.getD i 0 ≠ s.dense.getD (s.n - 1) 0 := by
      intro heq
      have := inj i (s.n - 1) (by omega) (by omega) heq
      omega
    refine ⟨by simpa using hb, ?_⟩
    rw [getD_set_ne _ _ _ _ _ (Ne.symm hne_last)]
    exact hs

theorem contains_erase (s : SparseSet) (v : Nat) (hwf : WF s) (hc : s.contains v = true)
    (w : Nat) : (s.erase v).contains w = (!(w == v) && s.contains w) := by
  have hrec := erase_eq s v hwf hc
  obtain ⟨hn, hinv⟩ := hwf
  rcases (contains_iff s v).1 hc with ⟨hv, hj, hdj⟩
  have hnpos : 0 < s.n := by omega
  rcases hinv (s.n - 1) (by omega) with ⟨hlast_lt, hslast⟩
  have hjlen : s.sparse.getD v 0 < s.dense.length := by omega
  have inj : ∀ a b, a < s.n → b < s.n →
      s.dense.getD a 0 = s.dense.getD b 0 → a = b := by
    intro a b ha hb heq
    have h1 := (hinv a ha).2
    have h2 := (hinv b hb).2
    rw [heq] at h1
    rw [h2] at h1
    exact h1.symm
  have hclast : s.contains (s.dense.getD (s.n - 1) 0) = true :=
    (contains_iff s _).2 ⟨hlast_lt, by rw [hslast]; omega, by rw [hslast]⟩
  rw [Bool.eq_iff_iff, hrec, contains_iff]
  dsimp only
  simp only [Bool.and_eq_true, Bool.not_eq_true', beq_eq_false_iff_ne, ne_eq]
  by_cases hwv : w = v
  · subst hwv
    constructor
    · rintro ⟨c1, c2, c3⟩
      exfalso
      by_cases hvlast : w = s.dense.getD (s.n - 1) 0
      · rw [hvlast] at c2
        rw [getD_set_eq _ _ _ _ hlast_lt] at c2
        rw [hslast] at c2
        omega
      · rw [getD_set_ne _ _ _ _ _ (fun h => hvlast h.symm)] at c2 c3
        rw [getD_set_eq _ _ _ _ hjlen] at c3
        exact hvlast c3.symm
    · rintro ⟨c1, _⟩
      exact absurd rfl c1
  · constructor
    · rintro ⟨c1, c2, c3⟩
      refine ⟨fun h => hwv h, ?_⟩
      simp only [List.length_set] at c1
      by_cases hwlast : w = s.dense.getD (s.n - 1) 0
      · rw [hwlast]
        exact hclast
      · rw [getD_set_ne _ _ _ _ _ (fun h => hwlast h.symm)] at c2 c3
        by_cases hkj : s.sparse.getD w 0 = s.sparse.getD v 0
        · rw [hkj, getD_set_eq _ _ _ _ hjlen] at c3
          exact absurd c3.symm hwlast
        · rw [getD_set_ne _ _ _ _ _ (fun h => hkj h.symm)] at c3
          exact (contains_iff s w).2 ⟨c1, by omega, c3⟩
    · rintro ⟨-, hcw⟩
      rcases (contains_iff s w).1 hcw with ⟨hw, hk, hdk⟩
      have hkj : s.sparse.getD w 0 ≠ s.sparse.getD v 0 := by
        intro heq
        apply hwv
        rw [← hdj, ← heq, hdk]
      by_cases hwlast : w = s.dense.getD (s.n - 1) 0
      · -- w is the last dense element; it moves to position sparse[v]
        have hkn : s.sparse.getD w 0 = s.n - 1 := by rw [hwlast, hslast]
        have hjn : s.sparse.getD v 0 ≠ s.n - 1 := fun heq => hkj (hkn.trans heq.symm)
        refine ⟨?_, ?_, ?_⟩
        · rw [hwlast]
          simpa using hlast_lt
        · rw [hwlast, getD_set_eq _ _ _ _ hlast_lt]
          omega
        · rw [hwlast, getD_set_eq _ _ _ _ hlast_lt, getD_set_eq _ _ _ _ hjlen]
      · -- w keeps its dense position
        have hkn : s.sparse.getD w 0 ≠ s.n - 1 := by
          intro heq
          apply hwlast
          rw [← hdk, heq]
        refine ⟨by simpa using hw, ?_, ?_⟩
        · rw [getD_set_ne _ _ _ _ _ (fun h => hwlast h.symm)]
          omega
        · rw [getD_set_ne _ _ _ _ _ (fun h => hwlast h.symm),
            getD_set_ne _ _ _ _ _ (fun h => hkj h.symm)]
          exact hdk

end SparseSet

theorem srun_spec (ops : List SOp) (s : SparseSet) (F : Finset Nat)
    (hwf : SparseSet.WF s) (habs : ∀ v, s.contains v = true ↔ v ∈ F)
    (hsz : s.size = F.card) (hval : svalidTrace s ops = true) :
    SparseSet.WF (ops.foldl sstep s) ∧
      (∀ v, (ops.foldl sstep s).contains v = true ↔ v ∈ smodelFrom F ops) ∧
      (ops.foldl sstep s).size = (smodelFrom F ops).card := by
  induction ops generalizing s F with
  | nil => exact ⟨hwf, habs, hsz⟩
  | cons op ops ih =>
    rw [svalidTrace, Bool.and_eq_true] at hval
    obtain ⟨hpre, hval⟩ := hval
    cases op with
    | ins v =>
      have hnc : s.contains v = false := by
        simp [spre] at hpre
        exact hpre
      have hvF : v ∉ F := fun h => by rw [← habs v, hnc] at h; exact Bool.noConfusion h
      refine ih (s.insert v) (insert v F)
        (SparseSet.wf_insert s v hwf hnc) ?_ ?_ hval
      · intro w
        rw [SparseSet.contains_insert s v hwf hnc w]
        simp only [Bool.or_eq_true, beq_iff_eq, Finset.mem_insert]
        rw [habs w]
      · rw [SparseSet.size_insert, Finset.card_insert_of_not_mem hvF, hsz]
    | del v =>
      have hc : s.contains v = true := hpre
      have hvF : v ∈ F := (habs v).1 hc
      refine ih (s.erase v) (F.erase v)
        (SparseSet.wf_erase s v hwf hc) ?_ ?_ hval
      · intro w
        rw [SparseSet.contains_erase s v hwf hc w]
        simp only [Bool.and_eq_true, Bool.not_eq_true', beq_eq_false_iff_ne, ne_eq,
          Finset.mem_erase]
        rw [habs w]
      · rw [SparseSet.size_erase, Finset.card_erase_of_mem hvF, hsz]

namespace EntityManager

variable {α : Type}

end EntityManager

/-! ### Bitmask lemmas -/

theorem maskSubset_iff (sig m : Nat) :
    maskSubset sig m = true ↔ ∀ b, sig.testBit b = true → m.testBit b = true := by
  rw [maskSubset, beq_iff_eq]
  constructor
  · intro h b hb
    have := congrArg (fun x => Nat.testBit x b) h
    simp only [Nat.testBit_land, hb, Bool.and_true] at this
    exact this
  · intro h
    apply Nat.eq_of_testBit_eq
    intro b
    rw [Nat.testBit_land]
    cases hb : sig.testBit b with
    | false => simp
    | true => simp [h b hb]

theorem testBit_maskSet_self (m f : Nat) : (maskSet m f).testBit f = true := by
  rw [maskSet, Nat.testBit_lor, Nat.testBit_two_pow_self]
  simp

theorem testBit_maskSet_other (m f g : Nat) (h : g ≠ f) :
    (maskSet m f).testBit g = m.testBit g := by
  rw [maskSet, Nat.testBit_lor, Nat.testBit_two_pow_of_ne (fun hx => h hx.symm)]
  simp

theorem testBit_maskReset_self (m f : Nat) : (maskReset m f).testBit f = false := by
  rw [maskReset, Nat.testBit_ldiff, Nat.testBit_two_pow_self]
  simp

theorem testBit_maskReset_other (m f g : Nat) (h : g ≠ f) :
    (maskReset m f).testBit g = m.testBit g := by
  rw [maskReset, Nat.testBit_ldiff, Nat.testBit_two_pow_of_ne (fun hx => h hx.symm)]
  simp

theorem maskReset_maskSet (m f : Nat) (h : m.testBit f = false) :
    maskReset (maskSet m f) f = m := by
  apply Nat.eq_of_testBit_eq
  intro b
  by_cases hb : b = f
  · rw [hb, testBit_maskReset_self, h]
  · rw [testBit_maskReset_other _ _ _ hb, testBit_maskSet_other _ _ _ hb]

theorem maskSubset_maskSet_of_not_test (sig m f : Nat) (h : sig.testBit f = false) :
    maskSubset sig (maskSet m f) = maskSubset sig m := by
  have : maskSet m f &&& sig = m &&& sig := by
    apply Nat.eq_of_testBit_eq
    intro b
    rw [Nat.testBit_land, Nat.testBit_land]
    by_cases hb : b = f
    · rw [hb, h]
      simp
    · rw [testBit_maskSet_other _ _ _ hb]
  rw [maskSubset, maskSubset, this]

theorem maskSubset_maskReset_of_not_test (sig m f : Nat) (h : sig.testBit f = false) :
    maskSubset sig (maskReset m f) = maskSubset sig m := by
  have : maskReset m f &&& sig = m &&& sig := by
    apply Nat.eq_of_testBit_eq
    intro b
    rw [Nat.testBit_land, Nat.testBit_land]
    by_cases hb : b = f
    · rw [hb, h]
      simp
    · rw [testBit_maskReset_other _ _ _ hb]
  rw [maskSubset, maskSubset, this]

theorem maskSubset_maskSet_mono (sig m f : Nat) (h : maskSubset sig m = true) :
    maskSubset sig (maskSet m f) = true := by
  rw [maskSubset_iff] at h ⊢
  intro b hb
  by_cases hbf : b = f
  · rw [hbf, testBit_maskSet_self]
  · rw [testBit_maskSet_other _ _ _ hbf]
    exact h b hb

theorem maskSubset_of_maskReset (sig m f : Nat)
    (h : maskSubset sig (maskReset m f) = true) : maskSubset sig m = true := by
  rw [maskSubset_iff] at h ⊢
  intro b hb
  have := h b hb
  by_cases hbf : b = f
  · rw [hbf, testBit_maskReset_self] at this
    exact Bool.noConfusion this
  · rw [testBit_maskReset_other _ _ _ hbf] at this
    exact this

theorem not_maskSubset_of_bit (sig m f : Nat) (hf : sig.testBit f = true)
    (hm : m.testBit f = false) : maskSubset sig m = false := by
  rw [Bool.eq_false_iff]
  intro h
  rw [maskSubset_iff] at h
  rw [h f hf] at hm
  exact Bool.noConfusion hm

theorem maskSubset_zero (sig : Nat) (h : sig ≠ 0) : maskSubset sig 0 = false := by
  rw [maskSubset]
  have hz : (0 : Nat) &&& sig = 0 := Nat.zero_and sig
  rw [hz]
  simp only [beq_eq_false_iff_ne, ne_eq]
  exact fun hx => h hx.symm

namespace EntityManager

theorem inv_empty : Inv (empty : EntityManager α) := by
  refine ⟨rfl, List.nodup_nil, ?_, ?_, ?_, ?_, ?_, ?_, ?_, SparseSet.wf_empty, ?_, ?_⟩
  · intro i hi
    simp [empty] at hi
  · intro i hi
    simp [empty] at hi
  · intro i f _
    simp [empty, Nat.zero_testBit]
  · intro i f h
    simp [empty] at h
  · intro c hc
    simp [empty] at hc
  · intro c hc
    simp [empty] at hc
  · intro c hc
    simp [empty] at hc
  · intro i h
    have h2 : SparseSet.empty.contains i = true := h
    rw [SparseSet.contains_empty] at h2
    exact Bool.noConfusion h2
  · intro i h
    have h2 : SparseSet.empty.contains i = true := h
    rw [SparseSet.contains_empty] at h2
    exact Bool.noConfusion h2

/-! ### Pool helper lemmas -/

theorem length_poolInsert [Inhabited α] (p : List α) (i : Nat) (x : α) :
    (poolInsert p i x).length = max p.length (i + 1) := by
  rw [poolInsert]
  split
  · simp
    omega
  · simp
    omega

theorem getD_poolInsert_self [Inhabited α] (p : List α) (i : Nat) (x : α) (d : α) :
    (poolInsert p i x).getD i d = x := by
  rw [poolInsert]
  split
  · apply getD_set_eq
    simp
    omega
  · apply getD_set_eq
    omega

theorem getD_poolInsert_other [Inhabited α] (p : List α) (i j : Nat) (x : α) (d : α)
    (hij : i ≠ j) (hj : j < p.length) : (poolInsert p i x).getD j d = p.getD j d := by
  rw [poolInsert]
  split
  · rw [getD_set_ne _ _ _ _ _ hij]
    exact getD_append_left _ _ _ _ hj
  · rw [getD_set_ne _ _ _ _ _ hij]

/-- A nonempty pool at family `f` means the pool vector extends past `f`. -/
theorem lt_length_of_getD_ne_nil {β : Type _} (l : List (List β)) (f : Nat)
    (h : 0 < (l.getD f []).length) : f < l.length := by
  by_contra hge
  rw [getD_of_length_le _ _ _ (by omega)] at h
  simp at h

/-! ### create_entity -/

theorem create_entity_spec (m : EntityManager α) (hinv : Inv m) :
    Inv m.create_entity.1 ∧
      m.create_entity.1.index_caches = m.index_caches ∧
      m.create_entity.1.component_pools = m.component_pools ∧
      m.create_entity.1.indices_to_destroy = m.indices_to_destroy ∧
      (∀ v, m.create_entity.1.masks.getD v 0 = m.masks.getD v 0) ∧
      m.create_entity.2.1 < m.create_entity.1.masks.length ∧
      m.create_entity.1.masks.getD m.create_entity.2.1 0 = 0 ∧
      m.create_entity.2.1 ∉ m.create_entity.1.free_indices ∧
      (m.create_entity.2.1 = m.masks.length ∨ m.create_entity.2.1 ∈ m.free_indices) ∧
      m.create_entity.1.index_versions.getD m.create_entity.2.1 0 = m.create_entity.2.2 ∧
      m.create_entity.1.masks.length = m.masks.length + (m.create_entity.1.masks.length - m.masks.length) := by
  obtain ⟨len_eq, free_nodup, free_lt, free_mask, mask_bits, pool_len,
    cache_wf, cache_sig, cache_coh, pend_wf, pend_lt, pend_free⟩ := hinv
  rw [create_entity]
  cases hfi : m.free_indices with
  | nil =>
    dsimp only
    have hmasks : ∀ v, (m.masks ++ [0]).getD v 0 = m.masks.getD v 0 := by
      intro v
      have := getD_append_replicate m.masks 1 v 0
      simpa using this
    refine ⟨⟨?_, ?_, ?_, ?_, ?_, ?_, cache_wf, cache_sig, ?_, pend_wf, ?_, ?_⟩,
      rfl, rfl, rfl, hmasks, ?_, ?_, ?_, ?_, ?_, ?_⟩
    · simp [len_eq]
    · exact List.nodup_nil
    · intro i hi
      exact absurd hi (List.not_mem_nil i)
    · intro i hi
      exact absurd hi (List.not_mem_nil i)
    · intro i f hf
      rw [hmasks]
      exact mask_bits i f hf
    · intro i f hf
      rw [hmasks] at hf
      exact pool_len i f hf
    · intro c hc v
      rw [hmasks]
      exact cache_coh c hc v
    · intro i h
      have := pend_lt i h
      simp
      omega
    · intro i h
      exact List.not_mem_nil i
    · simp
    · rw [hmasks]
      exact getD_of_length_le _ _ _ (le_refl _)
    · exact List.not_mem_nil _
    · left; rfl
    · rw [← len_eq]
      exact getD_concat_length _ _ _
    · simp
  | cons idx rest =>
    dsimp only
    have hidx : idx ∈ m.free_indices := by rw [hfi]; exact List.mem_cons_self idx rest
    have hrest : ∀ i ∈ rest, i ∈ m.free_indices := by
      intro i hi
      rw [hfi]
      exact List.mem_cons_of_mem idx hi
    refine ⟨⟨len_eq, ?_, ?_, ?_, mask_bits, pool_len, cache_wf, cache_sig, cache_coh,
      pend_wf, pend_lt, ?_⟩,
      rfl, rfl, rfl, fun v => rfl, free_lt idx hidx, free_mask idx hidx, ?_, ?_, rfl, ?_⟩
    · have := free_nodup
      rw [hfi] at this
      exact (List.nodup_cons.1 this).2
    · intro i hi
      exact free_lt i (hrest i hi)
    · intro i hi
      exact free_mask i (hrest i hi)
    · intro i h
      have := pend_free i h
      rw [hfi] at this
      intro hmem
      exact this (List.mem_cons_of_mem idx hmem)
    · have := free_nodup
      rw [hfi] at this
      exact (List.nodup_cons.1 this).1
    · right; exact List.mem_cons_self idx rest
    · omega

/-! ### destroy, clear, replace, count -/

theorem inv_destroy (m : EntityManager α) (i : Nat) (hinv : Inv m)
    (hlt : i < m.masks.length) (hfree : i ∉ m.free_indices) : Inv (m.destroy i) := by
  rw [destroy]
  split
  · exact hinv
  next hnc =>
    obtain ⟨len_eq, free_nodup, free_lt, free_mask, mask_bits, pool_len,
      cache_wf, cache_sig, cache_coh, pend_wf, pend_lt, pend_free⟩ := hinv
    have hnc' : m.indices_to_destroy.contains i = false := by
      cases h : m.indices_to_destroy.contains i with
      | false => rfl
      | true => exact absurd h hnc
    refine ⟨len_eq, free_nodup, free_lt, free_mask, mask_bits, pool_len,
      cache_wf, cache_sig, cache_coh, SparseSet.wf_insert _ _ pend_wf hnc', ?_, ?_⟩
    · intro j hj
      rw [SparseSet.contains_insert _ _ pend_wf hnc' j] at hj
      rcases Bool.or_eq_true_iff.1 hj with h | h
      · rw [beq_iff_eq] at h
        rw [h]
        exact hlt
      · exact pend_lt j h
    · intro j hj
      rw [SparseSet.contains_insert _ _ pend_wf hnc' j] at hj
      rcases Bool.or_eq_true_iff.1 hj with h | h
      · rw [beq_iff_eq] at h
        rw [h]
        exact hfree
      · exact pend_free j h

theorem inv_clear (m : EntityManager α) : Inv (m.clear) := by
  rw [clear]
  refine ⟨rfl, List.nodup_nil, ?_, ?_, ?_, ?_, ?_, ?_, ?_, SparseSet.wf_clear _, ?_, ?_⟩
  · intro i hi
    exact absurd hi (List.not_mem_nil i)
  · intro i hi
    exact absurd hi (List.not_mem_nil i)
  · intro i f _
    simp [Nat.zero_testBit]
  · intro i f h
    simp [Nat.zero_testBit] at h
  · intro c hc
    exact absurd hc (List.not_mem_nil c)
  · intro c hc
    exact absurd hc (List.not_mem_nil c)
  · intro c hc
    exact absurd hc (List.not_mem_nil c)
  · intro i h
    rw [SparseSet.contains_clear] at h
    exact Bool.noConfusion h
  · intro i h
    rw [SparseSet.contains_clear] at h
    exact Bool.noConfusion h

theorem inv_replace_component (m : EntityManager α) (f i : Nat) (x : α) (hinv : Inv m)
    (hbit : maskTest (m.masks.getD i 0) f = true) : Inv (m.replace_component f i x) := by
  obtain ⟨len_eq, free_nodup, free_lt, free_mask, mask_bits, pool_len,
    cache_wf, cache_sig, cache_coh, pend_wf, pend_lt, pend_free⟩ := hinv
  rw [replace_component]
  refine ⟨len_eq, free_nodup, free_lt, free_mask, mask_bits, ?_,
    cache_wf, cache_sig, cache_coh, pend_wf, pend_lt, pend_free⟩
  intro j g hg
  have hold := pool_len j g hg
  by_cases hgf : g = f
  · subst hgf
    have hflt : g < m.component_pools.length := by
      apply lt_length_of_getD_ne_nil
      have := pool_len i g hbit
      omega
    rw [getD_set_eq _ _ _ _ hflt]
    simpa using hold
  · rw [getD_set_ne _ _ _ _ _ (fun h => hgf h.symm)]
    exact hold

/-! ### add_component -/

theorem maskTest_eq (m f : Nat) : maskTest m f = m.testBit f := rfl

theorem add_component_spec [Inhabited α] (m : EntityManager α) (f i : Nat) (x : α)
    (hlt : i < m.masks.length) :
    (m.add_component f i x).masks = m.masks.set i (maskSet (m.masks.getD i 0) f) ∧
      (m.add_component f i x).index_caches = m.index_caches.map (fun c =>
        if maskTest c.1 f && maskSubset c.1 (maskSet (m.masks.getD i 0) f)
        then (c.1, c.2.insert i) else c) ∧
      (m.add_component f i x).free_indices = m.free_indices ∧
      (m.add_component f i x).index_versions = m.index_versions ∧
      (m.add_component f i x).indices_to_destroy = m.indices_to_destroy ∧
      (m.add_component f i x).component_pools.getD f [] =
        poolInsert (m.component_pools.getD f []) i x ∧
      ∀ g, g ≠ f →
        (m.add_component f i x).component_pools.getD g [] = m.component_pools.getD g [] := by
  have hcaches : (m.add_component f i x).index_caches = m.index_caches.map (fun c =>
      if maskTest c.1 f && maskSubset c.1 (maskSet (m.masks.getD i 0) f)
      then (c.1, c.2.insert i) else c) := by
    show m.index_caches.map (fun c =>
      if maskTest c.1 f &&
        maskSubset c.1 ((m.masks.set i (maskSet (m.masks.getD i 0) f)).getD i 0)
      then (c.1, c.2.insert i) else c) = _
    rw [getD_set_eq _ _ _ _ hlt]
  have hpools : (m.add_component f i x).component_pools =
      (if m.component_pools.length ≤ f
        then m.component_pools ++ List.replicate (f + 1 - m.component_pools.length) []
        else m.component_pools).set f
        (poolInsert ((if m.component_pools.length ≤ f
          then m.component_pools ++ List.replicate (f + 1 - m.component_pools.length) []
          else m.component_pools).getD f []) i x) := rfl
  have hp0getD : ∀ g, (if m.component_pools.length ≤ f
      then m.component_pools ++ List.replicate (f + 1 - m.component_pools.length) []
      else m.component_pools).getD g [] = m.component_pools.getD g [] := by
    intro g
    split
    · exact getD_append_replicate _ _ _ _
    · rfl
  have hp0len : f < (if m.component_pools.length ≤ f
      then m.component_pools ++ List.replicate (f + 1 - m.component_pools.length) []
      else m.component_pools).length := by
    split
    · simp
      omega
    · omega
  refine ⟨rfl, hcaches, rfl, rfl, rfl, ?_, ?_⟩
  · rw [hpools, getD_set_eq _ _ _ _ hp0len, hp0getD]
  · intro g hg
    rw [hpools, getD_set_ne _ _ _ _ _ (fun h => hg h.symm), hp0getD]

theorem inv_add_component [Inhabited α] (m : EntityManager α) (f i : Nat) (x : α)
    (hinv : Inv m) (hlt : i < m.masks.length) (hfree : i ∉ m.free_indices)
    (hbit : maskTest (m.masks.getD i 0) f = false) (hf : f < MAX_COMPONENTS) :
    Inv (m.add_component f i x) := by
  obtain ⟨hmasks, hcaches, hfreeq, hvers, hpend, hpoolf, hpoolg⟩ :=
    add_component_spec m f i x hlt
  obtain ⟨len_eq, free_nodup, free_lt, free_mask, mask_bits, pool_len,
    cache_wf, cache_sig, cache_coh, pend_wf, pend_lt, pend_free⟩ := hinv
  have hmget : ∀ v, (m.add_component f i x).masks.getD v 0 =
      if v = i then maskSet (m.masks.getD i 0) f else m.masks.getD v 0 := by
    intro v
    rw [hmasks]
    by_cases hv : v = i
    · rw [hv, getD_set_eq _ _ _ _ hlt, if_pos rfl]
    · rw [getD_set_ne _ _ _ _ _ (fun h => hv h.symm), if_neg hv]
  have hmlen : (m.add_component f i x).masks.length = m.masks.length := by
    rw [hmasks]
    simp
  -- caches whose signature tests f do not contain i beforehand
  have hnotin : ∀ c ∈ m.index_caches, maskTest c.1 f = true → c.2.contains i = false := by
    intro c hc htest
    rw [cache_coh c hc i]
    exact not_maskSubset_of_bit _ _ f htest hbit
  refine ⟨?_, ?_, ?_, ?_, ?_, ?_, ?_, ?_, ?_, ?_, ?_, ?_⟩
  · rw [hvers, hmlen, len_eq]
  · rw [hfreeq]; exact free_nodup
  · intro j hj
    rw [hfreeq] at hj
    rw [hmlen]
    exact free_lt j hj
  · intro j hj
    rw [hfreeq] at hj
    rw [hmget]
    rw [if_neg (fun h : j = i => hfree (h ▸ hj))]
    exact free_mask j hj
  · intro v g hg
    rw [hmget]
    by_cases hv : v = i
    · rw [if_pos hv]
      rw [maskSet]
      rw [Nat.testBit_lor, Nat.testBit_two_pow_of_ne (by rw [MAX_COMPONENTS] at hf hg; omega)]
      rw [mask_bits i g hg]
      rfl
    · rw [if_neg hv]
      exact mask_bits v g hg
  · intro v g hg
    rw [hmget] at hg
    by_cases hv : v = i
    · rw [if_pos hv] at hg
      by_cases hgf : g = f
      · rw [hgf, hpoolf, length_poolInsert]
        omega
      · rw [testBit_maskSet_other _ _ _ hgf] at hg
        rw [hpoolg g hgf, hv]
        exact pool_len i g hg
    · rw [if_neg hv] at hg
      by_cases hgf : g = f
      · rw [hgf, hpoolf, length_poolInsert]
        rw [hgf] at hg
        have := pool_len v f hg
        omega
      · rw [hpoolg g hgf]
        exact pool_len v g hg
  · intro c' hc'
    rw [hcaches] at hc'
    obtain ⟨c, hc, rfl⟩ := List.mem_map.1 hc'
    split
    next hcond =>
      rw [Bool.and_eq_true] at hcond
      exact SparseSet.wf_insert _ _ (cache_wf c hc) (hnotin c hc hcond.1)
    · exact cache_wf c hc
  · intro c' hc'
    rw [hcaches] at hc'
    obtain ⟨c, hc, rfl⟩ := List.mem_map.1 hc'
    split
    · exact cache_sig c hc
    · exact cache_sig c hc
  · intro c' hc' v
    rw [hcaches] at hc'
    obtain ⟨c, hc, rfl⟩ := List.mem_map.1 hc'
    rw [hmget]
    split
    next hcond =>
      rw [Bool.and_eq_true] at hcond
      rw [SparseSet.contains_insert _ _ (cache_wf c hc) (hnotin c hc hcond.1) v]
      by_cases hv : v = i
      · rw [if_pos hv, hv]
        rw [beq_self_eq_true, Bool.true_or]
        exact hcond.2.symm
      · rw [if_neg hv]
        have : (v == i) = false := by
          rw [beq_eq_false_iff_ne]
          exact hv
        rw [this, Bool.false_or]
        exact cache_coh c hc v
    next hcond =>
      by_cases hv : v = i
      · rw [if_pos hv, hv]
        rw [cache_coh c hc i]
        cases htest : maskTest c.1 f with
        | false =>
          rw [maskSubset_maskSet_of_not_test c.1 _ f htest]
        | true =>
          rw [not_maskSubset_of_bit _ _ f htest hbit]
          have hcond' : maskSubset c.1 (maskSet (m.masks.getD i 0) f) = false := by
            cases hcs : maskSubset c.1 (maskSet (m.masks.getD i 0) f) with
            | false => rfl
            | true => exact absurd (by rw [htest, hcs]; rfl) hcond
          rw [hcond']
      · rw [if_neg hv]
        exact cache_coh c hc v
  · rw [hpend]; exact pend_wf
  · intro j hj
    rw [hpend] at hj
    rw [hmlen]
    exact pend_lt j hj
  · intro j hj
    rw [hpend] at hj
    rw [hfreeq]
    exact pend_free j hj

/-! ### remove_component -/

theorem inv_remove_component (m : EntityManager α) (f i : Nat) (hinv : Inv m)
    (hlt : i < m.masks.length) (hfree : i ∉ m.free_indices)
    (hbit : maskTest (m.masks.getD i 0) f = true) : Inv (m.remove_component f i) := by
  obtain ⟨len_eq, free_nodup, free_lt, free_mask, mask_bits, pool_len,
    cache_wf, cache_sig, cache_coh, pend_wf, pend_lt, pend_free⟩ := hinv
  have hfbound : f < MAX_COMPONENTS := by
    by_contra hge
    rw [maskTest_eq, mask_bits i f (by omega)] at hbit
    exact Bool.noConfusion hbit
  have hmget : ∀ v, (m.remove_component f i).masks.getD v 0 =
      if v = i then maskReset (m.masks.getD i 0) f else m.masks.getD v 0 := by
    intro v
    show (m.masks.set i (maskReset (m.masks.getD i 0) f)).getD v 0 = _
    by_cases hv : v = i
    · rw [hv, getD_set_eq _ _ _ _ hlt, if_pos rfl]
    · rw [getD_set_ne _ _ _ _ _ (fun h => hv h.symm), if_neg hv]
  have hmlen : (m.remove_component f i).masks.length = m.masks.length := by
    show (m.masks.set i _).length = _
    simp
  -- caches that meet the erase condition contain i beforehand
  have hin : ∀ c ∈ m.index_caches, maskSubset c.1 (m.masks.getD i 0) = true →
      c.2.contains i = true := by
    intro c hc hsub
    rw [cache_coh c hc i]
    exact hsub
  refine ⟨?_, free_nodup, ?_, ?_, ?_, ?_, ?_, ?_, ?_, pend_wf, ?_, pend_free⟩
  · rw [hmlen]; exact len_eq
  · intro j hj
    rw [hmlen]
    exact free_lt j hj
  · intro j hj
    rw [hmget, if_neg (fun h : j = i => hfree (h ▸ hj))]
    exact free_mask j hj
  · intro v g hg
    rw [hmget]
    by_cases hv : v = i
    · rw [if_pos hv]
      rw [testBit_maskReset_other _ _ _ (by rw [MAX_COMPONENTS] at hfbound hg; omega)]
      exact mask_bits i g hg
    · rw [if_neg hv]
      exact mask_bits v g hg
  · intro v g hg
    rw [hmget] at hg
    by_cases hv : v = i
    · rw [if_pos hv] at hg
      by_cases hgf : g = f
      · rw [hgf, testBit_maskReset_self] at hg
        exact Bool.noConfusion hg
      · rw [testBit_maskReset_other _ _ _ hgf] at hg
        rw [hv]
        exact pool_len i g hg
    · rw [if_neg hv] at hg
      exact pool_len v g hg
  · intro c' hc'
    have hc2 : c' ∈ m.index_caches.map (fun c =>
        if maskTest c.1 f && maskSubset c.1 (m.masks.getD i 0)
        then (c.1, c.2.erase i) else c) := hc'
    obtain ⟨c, hc, rfl⟩ := List.mem_map.1 hc2
    split
    next hcond =>
      rw [Bool.and_eq_true] at hcond
      exact SparseSet.wf_erase _ _ (cache_wf c hc) (hin c hc hcond.2)
    · exact cache_wf c hc
  · intro c' hc'
    have hc2 : c' ∈ m.index_caches.map (fun c =>
        if maskTest c.1 f && maskSubset c.1 (m.masks.getD i 0)
        then (c.1, c.2.erase i) else c) := hc'
    obtain ⟨c, hc, rfl⟩ := List.mem_map.1 hc2
    split
    · exact cache_sig c hc
    · exact cache_sig c hc
  · intro c' hc' v
    have hc2 : c' ∈ m.index_caches.map (fun c =>
        if maskTest c.1 f && maskSubset c.1 (m.masks.getD i 0)
        then (c.1, c.2.erase i) else c) := hc'
    obtain ⟨c, hc, rfl⟩ := List.mem_map.1 hc2
    rw [hmget]
    split
    next hcond =>
      rw [Bool.and_eq_true] at hcond
      rw [SparseSet.contains_erase _ _ (cache_wf c hc) (hin c hc hcond.2) v]
      by_cases hv : v = i
      · rw [if_pos hv, hv]
        rw [beq_self_eq_true, Bool.not_true, Bool.false_and]
        exact (not_maskSubset_of_bit c.1 (maskReset (m.masks.getD i 0) f) f hcond.1
          (testBit_maskReset_self (m.masks.getD i 0) f)).symm
      · rw [if_neg hv]
        have : (v == i) = false := by
          rw [beq_eq_false_iff_ne]
          exact hv
        rw [this]
        simp only [Bool.not_false, Bool.true_and]
        exact cache_coh c hc v
    next hcond =>
      by_cases hv : v = i
      · rw [if_pos hv, hv]
        rw [cache_coh c hc i]
        cases htest : maskTest c.1 f with
        | false =>
          rw [maskSubset_maskReset_of_not_test c.1 _ f htest]
        | true =>
          have hsub : maskSubset c.1 (m.masks.getD i 0) = false := by
            cases hcs : maskSubset c.1 (m.masks.getD i 0) with
            | false => rfl
            | true => exact absurd (by rw [htest, hcs]; rfl) hcond
          rw [hsub]
          cases hres : maskSubset c.1 (maskReset (m.masks.getD i 0) f) with
          | false => rfl
          | true => rw [maskSubset_of_maskReset _ _ _ hres] at hsub; exact Bool.noConfusion hsub
      · rw [if_neg hv]
        exact cache_coh c hc v
  · intro j hj
    rw [hmlen]
    exact pend_lt j hj

/-! ### create_cache_for / resolve_cache_for -/

theorem buildCache_spec (p : Nat → Bool) (n : Nat) :
    SparseSet.WF ((List.range n).foldl (fun s j => if p j then s.insert j else s)
      SparseSet.empty) ∧
      ∀ v, ((List.range n).foldl (fun s j => if p j then s.insert j else s)
        SparseSet.empty).contains v = (decide (v < n) && p v) := by
  induction n with
  | zero =>
    simp only [List.range_zero, List.foldl_nil]
    refine ⟨SparseSet.wf_empty, ?_⟩
    intro v
    rw [SparseSet.contains_empty]
    simp
  | succ k ih =>
    obtain ⟨ihwf, ihc⟩ := ih
    rw [List.range_succ, List.foldl_append]
    simp only [List.foldl_cons, List.foldl_nil]
    by_cases hk : p k = true
    · rw [if_pos hk]
      have hnc : ((List.range k).foldl (fun s j => if p j then s.insert j else s)
          SparseSet.empty).contains k = false := by
        rw [ihc k]
        simp
      refine ⟨SparseSet.wf_insert _ _ ihwf hnc, ?_⟩
      intro v
      rw [SparseSet.contains_insert _ _ ihwf hnc v, ihc v]
      by_cases hv : v = k
      · subst hv
        rw [beq_self_eq_true, Bool.true_or, hk]
        simp
      · have : (v == k) = false := by
          rw [beq_eq_false_iff_ne]
          exact hv
        rw [this, Bool.false_or]
        have : (decide (v < k)) = (decide (v < k + 1)) := by
          rcases Nat.lt_or_ge v k with h | h
          · rw [decide_eq_true h, decide_eq_true (by omega)]
          · rw [decide_eq_false (by omega), decide_eq_false (by omega)]
        rw [this]
    · rw [if_neg hk]
      have hk' : p k = false := by
        cases h : p k with
        | false => rfl
        | true => exact absurd h hk
      refine ⟨ihwf, ?_⟩
      intro v
      rw [ihc v]
      by_cases hv : v = k
      · subst hv
        rw [hk', Bool.and_false, Bool.and_false]
      · have : (decide (v < k)) = (decide (v < k + 1)) := by
          rcases Nat.lt_or_ge v k with h | h
          · rw [decide_eq_true h, decide_eq_true (by omega)]
          · rw [decide_eq_false (by omega), decide_eq_false (by omega)]
        rw [this]

theorem inv_resolve_cache_for (m : EntityManager α) (sig : Nat) (hinv : Inv m)
    (hsig : sig ≠ 0) : Inv (m.resolve_cache_for sig) := by
  rw [resolve_cache_for]
  split
  · exact hinv
  · obtain ⟨len_eq, free_nodup, free_lt, free_mask, mask_bits, pool_len,
      cache_wf, cache_sig, cache_coh, pend_wf, pend_lt, pend_free⟩ := hinv
    obtain ⟨hwfS, hcS⟩ :=
      buildCache_spec (fun j => maskSubset sig (m.masks.getD j 0)) m.masks.length
    refine ⟨len_eq, free_nodup, free_lt, free_mask, mask_bits, pool_len, ?_, ?_, ?_,
      pend_wf, pend_lt, pend_free⟩
    · intro c hc
      rcases List.mem_append.1 hc with h | h
      · exact cache_wf c h
      · rw [List.mem_singleton] at h
        rw [h]
        exact hwfS
    · intro c hc
      rcases List.mem_append.1 hc with h | h
      · exact cache_sig c h
      · rw [List.mem_singleton] at h
        rw [h]
        exact hsig
    · intro c hc v
      have hmasks : (m.create_cache_for sig).masks = m.masks := rfl
      rw [hmasks]
      rcases List.mem_append.1 hc with h | h
      · exact cache_coh c h v
      · rw [List.mem_singleton] at h
        rw [h]
        dsimp only
        rw [hcS v]
        rcases Nat.lt_or_ge v m.masks.length with hv | hv
        · rw [decide_eq_true hv, Bool.true_and]
        · rw [decide_eq_false (by omega), Bool.false_and,
            getD_of_length_le _ _ _ hv, maskSubset_zero sig hsig]

theorem uinv_update_one (m : EntityManager α) (j : Nat) (hu : UInv m)
    (hj : j < m.masks.length) :
    UInv (update_one m j) ∧ (update_one m j).masks.length = m.masks.length ∧
      (update_one m j).index_versions.length = m.index_versions.length ∧
      (update_one m j).free_indices = j :: m.free_indices ∧
      (update_one m j).indices_to_destroy = m.indices_to_destroy ∧
      (update_one m j).component_pools = m.component_pools := by
  obtain ⟨len_eq, free_lt, free_mask, mask_bits, pool_len, cache_wf, cache_sig, cache_coh⟩ := hu
  have hmget : ∀ v, (update_one m j).masks.getD v 0 =
      if v = j then 0 else m.masks.getD v 0 := by
    intro v
    show (m.masks.set j 0).getD v 0 = _
    by_cases hv : v = j
    · rw [hv, getD_set_eq _ _ _ _ hj, if_pos rfl]
    · rw [getD_set_ne _ _ _ _ _ (fun h => hv h.symm), if_neg hv]
  have hcaches : (update_one m j).index_caches = m.index_caches.map (fun c =>
      if maskSubset c.1 (m.masks.getD j 0) then (c.1, c.2.erase j) else c) := rfl
  have hmlen : (update_one m j).masks.length = m.masks.length := by
    show (m.masks.set j 0).length = m.masks.length
    simp
  have hvlen : (update_one m j).index_versions.length = m.index_versions.length := by
    show (m.index_versions.set j _).length = m.index_versions.length
    simp
  refine ⟨⟨?_, ?_, ?_, ?_, ?_, ?_, ?_, ?_⟩, hmlen, hvlen, rfl, rfl, rfl⟩
  · rw [hmlen, hvlen, len_eq]
  · intro k hk
    rw [hmlen]
    rcases List.mem_cons.1 hk with h | h
    · rw [h]; exact hj
    · exact free_lt k h
  · intro k hk
    rw [hmget]
    by_cases hkj : k = j
    · rw [if_pos hkj]
    · rw [if_neg hkj]
      rcases List.mem_cons.1 hk with h | h
      · exact absurd h hkj
      · exact free_mask k h
  · intro v g hg
    rw [hmget]
    by_cases hv : v = j
    · rw [if_pos hv, Nat.zero_testBit]
    · rw [if_neg hv]
      exact mask_bits v g hg
  · intro v g hg
    rw [hmget] at hg
    by_cases hv : v = j
    · rw [if_pos hv, Nat.zero_testBit] at hg
      exact Bool.noConfusion hg
    · rw [if_neg hv] at hg
      exact pool_len v g hg
  · intro c' hc'
    rw [hcaches] at hc'
    obtain ⟨c, hc, rfl⟩ := List.mem_map.1 hc'
    split
    next hcond =>
      exact SparseSet.wf_erase _ _ (cache_wf c hc) (by rw [cache_coh c hc j]; exact hcond)
    · exact cache_wf c hc
  · intro c' hc'
    rw [hcaches] at hc'
    obtain ⟨c, hc, rfl⟩ := List.mem_map.1 hc'
    split
    · exact cache_sig c hc
    · exact cache_sig c hc
  · intro c' hc' v
    rw [hcaches] at hc'
    obtain ⟨c, hc, rfl⟩ := List.mem_map.1 hc'
    rw [hmget]
    split
    next hcond =>
      rw [SparseSet.contains_erase _ _ (cache_wf c hc)
        (by rw [cache_coh c hc j]; exact hcond) v]
      by_cases hv : v = j
      · rw [if_pos hv, hv, beq_self_eq_true, Bool.not_true, Bool.false_and,
          maskSubset_zero c.1 (cache_sig c hc)]
      · rw [if_neg hv]
        have : (v == j) = false := by
          rw [beq_eq_false_iff_ne]
          exact hv
        rw [this, Bool.not_false, Bool.true_and]
        exact cache_coh c hc v
    next hcond =>
      by_cases hv : v = j
      · rw [if_pos hv, hv, cache_coh c hc j, maskSubset_zero c.1 (cache_sig c hc)]
        cases h : maskSubset c.1 (m.masks.getD j 0) with
        | false => rfl
        | true => exact absurd h hcond
      · rw [if_neg hv]
        exact cache_coh c hc v

theorem uinv_foldl_update (L : List Nat) (m : EntityManager α) (hu : UInv m)
    (hL : ∀ j ∈ L, j < m.masks.length) :
    UInv (L.foldl update_one m) ∧
      (L.foldl update_one m).masks.length = m.masks.length ∧
      (L.foldl update_one m).index_versions.length = m.index_versions.length ∧
      (L.foldl update_one m).free_indices = L.reverse ++ m.free_indices ∧
      (L.foldl update_one m).indices_to_destroy = m.indices_to_destroy := by
  induction L generalizing m with
  | nil => exact ⟨hu, rfl, rfl, by simp, rfl⟩
  | cons j L ih =>
    have hj : j < m.masks.length := hL j (List.mem_cons_self j L)
    obtain ⟨hu1, hml1, hvl1, hfree1, hpend1, hpools1⟩ := uinv_update_one m j hu hj
    obtain ⟨hu2, hml2, hvl2, hfree2, hpend2⟩ := ih (update_one m j) hu1
      (by intro k hk; rw [hml1]; exact hL k (List.mem_cons_of_mem j hk))
    rw [List.foldl_cons]
    refine ⟨hu2, by rw [hml2, hml1], by rw [hvl2, hvl1], ?_, by rw [hpend2, hpend1]⟩
    rw [hfree2, hfree1]
    simp

theorem inv_update (m : EntityManager α) (hinv : Inv m) : Inv (m.update) := by
  obtain ⟨len_eq, free_nodup, free_lt, free_mask, mask_bits, pool_len,
    cache_wf, cache_sig, cache_coh, pend_wf, pend_lt, pend_free⟩ := hinv
  have hu : UInv m := ⟨len_eq, free_lt, free_mask, mask_bits, pool_len,
    cache_wf, cache_sig, cache_coh⟩
  have hL : ∀ j ∈ m.indices_to_destroy.toList, j < m.masks.length := by
    intro j hj
    exact pend_lt j ((SparseSet.mem_toList_iff _ pend_wf j).1 hj)
  have hLfree : ∀ j ∈ m.indices_to_destroy.toList, j ∉ m.free_indices := by
    intro j hj
    exact pend_free j ((SparseSet.mem_toList_iff _ pend_wf j).1 hj)
  have hLnodup : m.indices_to_destroy.toList.Nodup := SparseSet.nodup_toList _ pend_wf
  obtain ⟨hu1, hml, hvl, hfree, hpend⟩ :=
    uinv_foldl_update m.indices_to_destroy.toList m hu hL
  obtain ⟨len_eq1, free_lt1, free_mask1, mask_bits1, pool_len1,
    cache_wf1, cache_sig1, cache_coh1⟩ := hu1
  show Inv { m.indices_to_destroy.toList.foldl update_one m with
    indices_to_destroy := (m.indices_to_destroy.toList.foldl update_one m).indices_to_destroy.clear }
  refine ⟨len_eq1, ?_, free_lt1, free_mask1, mask_bits1, pool_len1,
    cache_wf1, cache_sig1, cache_coh1, SparseSet.wf_clear _, ?_, ?_⟩
  · rw [hfree]
    refine List.Nodup.append (List.nodup_reverse.2 hLnodup) free_nodup ?_
    intro a ha
    rw [List.mem_reverse] at ha
    exact hLfree a ha
  · intro i h
    rw [SparseSet.contains_clear] at h
    exact Bool.noConfusion h
  · intro i h
    rw [SparseSet.contains_clear] at h
    exact Bool.noConfusion h

/-! ### create_copy_of -/

theorem copy_fold_length [Inhabited α] (mask orig clone : Nat) :
    ∀ (L : List Nat) (pools : List (List α)),
      (L.foldl (fun ps family =>
        if maskTest mask family
        then ps.set family (poolInsert (ps.getD family []) clone (poolAt (ps.getD family []) orig))
        else ps) pools).length = pools.length := by
  intro L
  induction L with
  | nil => intro pools; rfl
  | cons j L ih =>
    intro pools
    rw [List.foldl_cons]
    rw [ih]
    split
    · simp
    · rfl

theorem copy_fold_getD [Inhabited α] (mask orig clone : Nat) :
    ∀ (n : Nat) (pools : List (List α)),
      (∀ f, maskTest mask f = true → f < pools.length) →
      ∀ g, ((List.range n).foldl (fun ps family =>
          if maskTest mask family
          then ps.set family (poolInsert (ps.getD family []) clone (poolAt (ps.getD family []) orig))
          else ps) pools).getD g []
        = if maskTest mask g = true ∧ g < n
          then poolInsert (pools.getD g []) clone (poolAt (pools.getD g []) orig)
          else pools.getD g [] := by
  intro n
  induction n with
  | zero =>
    intro pools _ g
    simp only [List.range_zero, List.foldl_nil]
    rw [if_neg]
    rintro ⟨-, h⟩
    omega
  | succ k ih =>
    intro pools hlen g
    rw [List.range_succ, List.foldl_append]
    simp only [List.foldl_cons, List.foldl_nil]
    have hS := ih pools hlen
    have hSlen := copy_fold_length (α := α) mask orig clone (List.range k) pools
    by_cases htest : maskTest mask k = true
    · rw [if_pos htest]
      by_cases hg : g = k
      · rw [hg, getD_set_eq _ _ _ _ (by rw [hSlen]; exact hlen k htest), hS k,
          if_neg (by rintro ⟨-, h⟩; omega), if_pos ⟨htest, by omega⟩]
      · rw [getD_set_ne _ _ _ _ _ (fun h => hg h.symm), hS g]
        by_cases hcond : maskTest mask g = true ∧ g < k
        · rw [if_pos hcond, if_pos ⟨hcond.1, by omega⟩]
        · rw [if_neg hcond, if_neg ?_]
          rintro ⟨h1, h2⟩
          exact hcond ⟨h1, by omega⟩
    · rw [if_neg htest, hS g]
      by_cases hcond : maskTest mask g = true ∧ g < k
      · rw [if_pos hcond, if_pos ⟨hcond.1, by omega⟩]
      · rw [if_neg hcond, if_neg ?_]
        rintro ⟨h1, h2⟩
        apply hcond
        refine ⟨h1, ?_⟩
        rcases Nat.lt_or_ge g k with h | h
        · exact h
        · exfalso
          have : g = k := by omega
          rw [this] at h1
          rw [h1] at htest
          exact htest rfl

theorem create_copy_of_spec [Inhabited α] (m : EntityManager α) (orig : Nat) (hinv : Inv m)
    (horig_lt : orig < m.index_versions.length) (horig_free : orig ∉ m.free_indices) :
    Inv (m.create_copy_of orig).1 ∧
      (m.create_copy_of orig).2.1 ≠ orig ∧
      ((m.create_copy_of orig).2.1 = m.masks.length ∨
        (m.create_copy_of orig).2.1 ∈ m.free_indices) ∧
      (m.create_copy_of orig).1.masks.getD (m.create_copy_of orig).2.1 0 =
        m.masks.getD orig 0 ∧
      (m.create_copy_of orig).1.masks.getD orig 0 = m.masks.getD orig 0 ∧
      (m.create_copy_of orig).1.valid_id (m.create_copy_of orig).2.1
        (m.create_copy_of orig).2.2 = true ∧
      (∀ f, (m.masks.getD orig 0).testBit f = true →
        poolAt ((m.create_copy_of orig).1.component_pools.getD f [])
            (m.create_copy_of orig).2.1 =
          poolAt (m.component_pools.getD f []) orig ∧
        poolAt ((m.create_copy_of orig).1.component_pools.getD f []) orig =
          poolAt (m.component_pools.getD f []) orig) ∧
      (m.create_copy_of orig).1.index_caches.map Prod.fst =
        m.index_caches.map Prod.fst ∧
      (∀ c ∈ (m.create_copy_of orig).1.index_caches,
        maskSubset c.1 (m.masks.getD orig 0) = true →
          c.2.contains (m.create_copy_of orig).2.1 = true) := by
  obtain ⟨hinv1, hcach1, hpool1, hpend1, hmaskPt, hclone_lt, hclone_mask0, hclone_free,
    hclone_or, hver1, _⟩ := create_entity_spec m hinv
  obtain ⟨len_eq1, free_nodup1, free_lt1, free_mask1, mask_bits1, pool_len1,
    cache_wf1, cache_sig1, cache_coh1, pend_wf1, pend_lt1, pend_free1⟩ := hinv1
  obtain ⟨len_eq, free_nodup, free_lt, free_mask, mask_bits, pool_len,
    cache_wf, cache_sig, cache_coh, pend_wf, pend_lt, pend_free⟩ := hinv
  -- abbreviations for the post-create_entity state and the returned handle
  have hneq : m.create_entity.2.1 ≠ orig := by
    rcases hclone_or with h | h
    · rw [h]
      rw [len_eq] at horig_lt
      omega
    · intro heq
      rw [heq] at h
      exact horig_free h
  have hmask_orig : m.create_entity.1.masks.getD orig 0 = m.masks.getD orig 0 := hmaskPt orig
  -- record projections of the copy
  have hm4masks : (m.create_copy_of orig).1.masks =
      m.create_entity.1.masks.set m.create_entity.2.1
        (m.create_entity.1.masks.getD orig 0) := rfl
  have hm4caches : (m.create_copy_of orig).1.index_caches =
      m.create_entity.1.index_caches.map (fun c =>
        if maskSubset c.1 (m.create_entity.1.masks.getD orig 0)
        then (c.1, c.2.insert m.create_entity.2.1) else c) := rfl
  have hm4pools : (m.create_copy_of orig).1.component_pools =
      copy_components m.create_entity.1.component_pools
        (m.create_entity.1.masks.getD orig 0) orig m.create_entity.2.1 := rfl
  have hm4vers : (m.create_copy_of orig).1.index_versions =
      m.create_entity.1.index_versions := rfl
  have hm4free : (m.create_copy_of orig).1.free_indices =
      m.create_entity.1.free_indices := rfl
  have hm4pend : (m.create_copy_of orig).1.indices_to_destroy =
      m.create_entity.1.indices_to_destroy := rfl
  have hm4ret : (m.create_copy_of orig).2 = m.create_entity.2 := rfl
  have hm4mget : ∀ v, (m.create_copy_of orig).1.masks.getD v 0 =
      if v = m.create_entity.2.1 then m.masks.getD orig 0
      else m.create_entity.1.masks.getD v 0 := by
    intro v
    rw [hm4masks]
    by_cases hv : v = m.create_entity.2.1
    · rw [hv, getD_set_eq _ _ _ _ hclone_lt, if_pos rfl, hmask_orig]
    · rw [getD_set_ne _ _ _ _ _ (fun h => hv h.symm), if_neg hv]
  have hm4mlen : (m.create_copy_of orig).1.masks.length =
      m.create_entity.1.masks.length := by
    rw [hm4masks]
    simp
  -- mask bits of the copied mask are below MAX_COMPONENTS
  have hmask_small : ∀ f, MAX_COMPONENTS ≤ f →
      (m.masks.getD orig 0).testBit f = false := fun f hf => mask_bits orig f hf
  have hpools_hlen : ∀ f, maskTest (m.create_entity.1.masks.getD orig 0) f = true →
      f < m.create_entity.1.component_pools.length := by
    intro f hf
    rw [hmask_orig] at hf
    apply lt_length_of_getD_ne_nil
    have h1 : orig < ((m.component_pools.getD f []).length) := pool_len orig f hf
    rw [hpool1]
    omega
  have hm4poolget : ∀ g, (m.create_copy_of orig).1.component_pools.getD g [] =
      if maskTest (m.masks.getD orig 0) g = true ∧ g < MAX_COMPONENTS
      then poolInsert (m.component_pools.getD g []) m.create_entity.2.1
        (poolAt (m.component_pools.getD g []) orig)
      else m.component_pools.getD g [] := by
    intro g
    rw [hm4pools, copy_components,
      copy_fold_getD _ orig _ MAX_COMPONENTS _ hpools_hlen g, hmask_orig, hpool1]
  have hnotin : ∀ c ∈ m.create_entity.1.index_caches,
      c.2.contains m.create_entity.2.1 = false := by
    intro c hc
    rw [cache_coh1 c hc _, hclone_mask0]
    exact maskSubset_zero c.1 (cache_sig1 c hc)
  refine ⟨⟨?_, ?_, ?_, ?_, ?_, ?_, ?_, ?_, ?_, ?_, ?_, ?_⟩, hneq, hclone_or, ?_, ?_, ?_,
    ?_, ?_, ?_⟩
  · rw [hm4vers, hm4mlen, len_eq1]
  · rw [hm4free]; exact free_nodup1
  · intro j hj
    rw [hm4free] at hj
    rw [hm4mlen]
    exact free_lt1 j hj
  · intro j hj
    rw [hm4free] at hj
    rw [hm4mget, if_neg (fun h : j = m.create_entity.2.1 => hclone_free (h ▸ hj))]
    exact free_mask1 j hj
  · intro v g hg
    rw [hm4mget]
    by_cases hv : v = m.create_entity.2.1
    · rw [if_pos hv]
      exact hmask_small g hg
    · rw [if_neg hv]
      exact mask_bits1 v g hg
  · intro v g hg
    rw [hm4mget] at hg
    rw [hm4poolget]
    by_cases hv : v = m.create_entity.2.1
    · rw [if_pos hv] at hg
      have hgsmall : g < MAX_COMPONENTS := by
        by_contra hge
        rw [hmask_small g (by omega)] at hg
        exact Bool.noConfusion hg
      rw [if_pos ⟨hg, hgsmall⟩, length_poolInsert]
      omega
    · rw [if_neg hv] at hg
      have hv1 : v < (m.create_entity.1.component_pools.getD g []).length := pool_len1 v g hg
      rw [hpool1] at hv1
      split
      · rw [length_poolInsert]
        omega
      · omega
  · intro c' hc'
    rw [hm4caches] at hc'
    obtain ⟨c, hc, rfl⟩ := List.mem_map.1 hc'
    split
    · exact SparseSet.wf_insert _ _ (cache_wf1 c hc) (hnotin c hc)
    · exact cache_wf1 c hc
  · intro c' hc'
    rw [hm4caches] at hc'
    obtain ⟨c, hc, rfl⟩ := List.mem_map.1 hc'
    split
    · exact cache_sig1 c hc
    · exact cache_sig1 c hc
  · intro c' hc' v
    rw [hm4caches] at hc'
    obtain ⟨c, hc, rfl⟩ := List.mem_map.1 hc'
    rw [hm4mget]
    split
    next hcond =>
      rw [SparseSet.contains_insert _ _ (cache_wf1 c hc) (hnotin c hc) v]
      by_cases hv : v = m.create_entity.2.1
      · rw [if_pos hv, hv, beq_self_eq_true, Bool.true_or]
        rw [hmask_orig] at hcond
        exact hcond.symm
      · rw [if_neg hv]
        have : (v == m.create_entity.2.1) = false := by
          rw [beq_eq_false_iff_ne]
          exact hv
        rw [this, Bool.false_or]
        exact cache_coh1 c hc v
    next hcond =>
      by_cases hv : v = m.create_entity.2.1
      · rw [if_pos hv, hv, cache_coh1 c hc _, hclone_mask0,
          maskSubset_zero c.1 (cache_sig1 c hc)]
        rw [hmask_orig] at hcond
        cases h : maskSubset c.1 (m.masks.getD orig 0) with
        | false => rfl
        | true => exact absurd h hcond
      · rw [if_neg hv]
        exact cache_coh1 c hc v
  · rw [hm4pend]; exact pend_wf1
  · intro j hj
    rw [hm4pend] at hj
    rw [hm4mlen]
    exact pend_lt1 j hj
  · intro j hj
    rw [hm4pend] at hj
    rw [hm4free]
    exact pend_free1 j hj
  · show (m.create_copy_of orig).1.masks.getD m.create_entity.2.1 0 = m.masks.getD orig 0
    rw [hm4mget, if_pos rfl]
  · rw [hm4mget, if_neg (fun h : orig = m.create_entity.2.1 => hneq h.symm)]
    exact hmask_orig
  · show ((m.create_copy_of orig).1.index_versions.getD m.create_entity.2.1 0 ==
      m.create_entity.2.2) = true
    rw [hm4vers, hver1]
    exact beq_self_eq_true _
  · intro f hf
    have hfsmall : f < MAX_COMPONENTS := by
      by_contra hge
      rw [hmask_small f (by omega)] at hf
      exact Bool.noConfusion hf
    have hpget := hm4poolget f
    rw [if_pos ⟨hf, hfsmall⟩] at hpget
    constructor
    · show poolAt ((m.create_copy_of orig).1.component_pools.getD f []) m.create_entity.2.1 =
        poolAt (m.component_pools.getD f []) orig
      rw [hpget]
      simp only [poolAt]
      rw [getD_poolInsert_self]
    · rw [hpget]
      simp only [poolAt]
      rw [getD_poolInsert_other _ _ _ _ _ hneq (pool_len orig f hf)]
  · rw [hm4caches, hcach1, List.map_map]
    apply List.map_congr_left
    intro c _
    simp only [Function.comp_apply]
    split
    · rfl
    · rfl
  · intro c' hc' hsub
    have hret : (m.create_copy_of orig).2.1 = m.create_entity.2.1 := rfl
    rw [hret]
    rw [hm4caches] at hc'
    obtain ⟨c, hc, rfl⟩ := List.mem_map.1 hc'
    rw [hmask_orig] at hsub ⊢
    split
    next hcond =>
      rw [SparseSet.contains_insert _ _ (cache_wf1 c hc) (hnotin c hc), beq_self_eq_true,
        Bool.true_or]
    next hcond =>
      exfalso
      rw [if_neg hcond] at hsub
      exact hcond hsub

/-! ### Invariant preservation along valid traces -/

theorem live_spec (m : EntityManager α) (i v : Nat) (h : m.live i v = true) :
    i < m.index_versions.length ∧ m.index_versions.getD i 0 = v ∧ i ∉ m.free_indices := by
  simp only [live, valid_id, Bool.and_eq_true, decide_eq_true_eq, Bool.not_eq_true',
    decide_eq_false_iff_not, beq_iff_eq] at h
  exact ⟨h.1, h.2.1, h.2.2⟩

theorem inv_step [Inhabited α] (m : EntityManager α) (op : Op α) (hinv : Inv m)
    (hpre : m.pre op = true) : Inv (m.step op) := by
  cases op with
  | create => exact (create_entity_spec m hinv).1
  | copy orig version =>
    rw [pre] at hpre
    obtain ⟨hlt, _, hfree⟩ := live_spec m orig version hpre
    exact (create_copy_of_spec m orig hinv hlt hfree).1
  | add f i x =>
    simp only [pre, Bool.and_eq_true, decide_eq_true_eq, Bool.not_eq_true',
      decide_eq_false_iff_not] at hpre
    obtain ⟨hlt, hfree, hbit, hf⟩ := hpre
    exact inv_add_component m f i x hinv hlt hfree hbit hf
  | repl f i x =>
    simp only [pre, Bool.and_eq_true, decide_eq_true_eq, Bool.not_eq_true',
      decide_eq_false_iff_not] at hpre
    exact inv_replace_component m f i x hinv hpre.2.2
  | remove f i =>
    simp only [pre, Bool.and_eq_true, decide_eq_true_eq, Bool.not_eq_true',
      decide_eq_false_iff_not] at hpre
    obtain ⟨hlt, hfree, hbit⟩ := hpre
    exact inv_remove_component m f i hinv hlt hfree hbit
  | destroy i version =>
    rw [pre] at hpre
    obtain ⟨hlt, _, hfree⟩ := live_spec m i version hpre
    rw [hinv.len_eq] at hlt
    exact inv_destroy m i hinv hlt hfree
  | update => exact inv_update m hinv
  | clear => exact inv_clear m
  | query sig =>
    simp only [pre, Bool.and_eq_true, Bool.not_eq_true', beq_eq_false_iff_ne, ne_eq] at hpre
    exact inv_resolve_cache_for m sig hinv hpre.1
  | count sig => exact hinv

theorem inv_validTrace [Inhabited α] :
    ∀ (ops : List (Op α)) (m : EntityManager α),
      Inv m → validTrace m ops = true → Inv (ops.foldl step m) := by
  intro ops
  induction ops with
  | nil =>
    intro m h _
    exact h
  | cons op ops ih =>
    intro m hinv hval
    simp only [validTrace, Bool.and_eq_true] at hval
    rw [List.foldl_cons]
    exact ih _ (inv_step m op hinv hval.1) hval.2

theorem inv_run [Inhabited α] (ops : List (Op α))
    (h : validTrace (empty : EntityManager α) ops = true) : Inv (run ops) :=
  inv_validTrace ops empty inv_empty h

end EntityManager

namespace EntityManager

variable {α : Type}

theorem destroy_versions (m : EntityManager α) (i : Nat) :
    (m.destroy i).index_versions = m.index_versions := by
  rw [destroy]
  split
  · rfl
  · rfl

theorem destroy_masks (m : EntityManager α) (i : Nat) :
    (m.destroy i).masks = m.masks := by
  rw [destroy]
  split
  · rfl
  · rfl

theorem destroy_marked (m : EntityManager α) (i : Nat)
    (hwf : SparseSet.WF m.indices_to_destroy) :
    (m.destroy i).indices_to_destroy.contains i = true := by
  rw [destroy]
  split
  next hc => exact hc
  next hc =>
    have hcf : m.indices_to_destroy.contains i = false := by
      cases hcc : m.indices_to_destroy.contains i with
      | false => rfl
      | true => exact absurd hcc hc
    show (m.indices_to_destroy.insert i).contains i = true
    rw [SparseSet.contains_insert _ _ hwf hcf i, beq_self_eq_true, Bool.true_or]

theorem destroy_destroy (m : EntityManager α) (i : Nat)
    (hwf : SparseSet.WF m.indices_to_destroy) : (m.destroy i).destroy i = m.destroy i := by
  have hcont := destroy_marked m i hwf
  have h2 : (m.destroy i).destroy i =
      if (m.destroy i).indices_to_destroy.contains i then m.destroy i
      else { m.destroy i with
        indices_to_destroy := (m.destroy i).indices_to_destroy.insert i } := rfl
  rw [h2, if_pos hcont]

theorem destroy_iterate (m : EntityManager α) (i : Nat) (hinv : Inv m)
    (hlt : i < m.masks.length) (hfree : i ∉ m.free_indices) :
    ∀ k, Nat.iterate (fun mm => EntityManager.destroy mm i) (k + 1) m = m.destroy i := by
  intro k
  induction k with
  | zero => rw [Function.iterate_one]
  | succ k ih =>
    rw [Function.iterate_succ_apply', ih]
    exact destroy_destroy m i hinv.pend_wf

theorem find?_append_of_none {β : Type _} (l₁ l₂ : List β) (p : β → Bool)
    (h : l₁.find? p = none) : (l₁ ++ l₂).find? p = l₂.find? p := by
  induction l₁ with
  | nil => rfl
  | cons a l ih =>
    rw [List.cons_append]
    cases hp : p a with
    | true =>
      rw [List.find?_cons_of_pos _ hp] at h
      exact Option.noConfusion h
    | false =>
      rw [List.find?_cons_of_neg _ (by rw [hp]; exact Bool.false_ne_true)] at h
      rw [List.find?_cons_of_neg _ (by rw [hp]; exact Bool.false_ne_true)]
      exact ih h

theorem buildCache_size (p : Nat → Bool) (n : Nat) :
    ((List.range n).foldl (fun s j => if p j then s.insert j else s)
      SparseSet.empty).size = (List.range n).countP p := by
  induction n with
  | zero => rfl
  | succ k ih =>
    rw [List.range_succ, List.foldl_append, List.countP_append]
    simp only [List.foldl_cons, List.foldl_nil]
    by_cases hk : p k = true
    · rw [if_pos hk, SparseSet.size_insert, ih]
      simp [List.countP_cons, hk]
    · have hkf : p k = false := by
        cases hc : p k with
        | false => rfl
        | true => exact absurd hc hk
      rw [if_neg hk, ih]
      simp [List.countP_cons, hkf]

theorem countP_eq_countP_range (l : List Nat) (q : Nat → Bool) :
    l.countP q = (List.range l.length).countP (fun j => q (l.getD j 0)) := by
  induction l using List.reverseRecOn with
  | nil => rfl
  | append_singleton l a ih =>
    rw [List.countP_append, List.length_append]
    have hone : ([a] : List Nat).countP q = (if q a then 1 else 0) := by
      simp [List.countP_cons]
    rw [hone]
    have hlen : l.length + [a].length = l.length + 1 := by simp
    rw [hlen, List.range_succ, List.countP_append]
    have hcongr : (List.range l.length).countP (fun j => q ((l ++ [a]).getD j 0)) =
        (List.range l.length).countP (fun j => q (l.getD j 0)) := by
      apply List.countP_congr
      intro j hj
      rw [List.mem_range] at hj
      rw [getD_append_left _ _ _ _ hj]
    have hlast : ([l.length] : List Nat).countP (fun j => q ((l ++ [a]).getD j 0)) =
        (if q a then 1 else 0) := by
      simp [List.countP_cons, getD_concat_length]
    rw [hcongr, hlast, ih]

theorem number_of_entities_with_eq (m : EntityManager α) (hinv : Inv m) (sig : Nat)
    (hsig : sig ≠ 0) :
    m.number_of_entities_with sig = m.masks.countP (fun mask => maskSubset sig mask) := by
  cases hfind : m.index_caches.find? (fun c => c.1 == sig) with
  | none =>
    show (match m.index_caches.find? (fun c => c.1 == sig) with
      | some c => c.2.size
      | none => m.masks.countP fun mask => maskSubset sig mask) = _
    rw [hfind]
  | some c =>
    have hstep : m.number_of_entities_with sig = c.2.size := by
      show (match m.index_caches.find? (fun c => c.1 == sig) with
        | some c => c.2.size
        | none => m.masks.countP fun mask => maskSubset sig mask) = _
      rw [hfind]
    rw [hstep]
    have hc : c ∈ m.index_caches := List.mem_of_find?_eq_some hfind
    have hkey : c.1 = sig := by
      have := List.find?_some hfind
      rwa [beq_iff_eq] at this
    have hwf := hinv.cache_wf c hc
    have hcoh := hinv.cache_coh c hc
    have hmem : ∀ v, v ∈ c.2.toList ↔
        v ∈ (List.range m.masks.length).filter
          (fun j => maskSubset sig (m.masks.getD j 0)) := by
      intro v
      rw [SparseSet.mem_toList_iff _ hwf v, hcoh v, hkey, List.mem_filter, List.mem_range]
      constructor
      · intro hv
        refine ⟨?_, hv⟩
        by_contra hge
        rw [getD_of_length_le _ _ _ (by omega), maskSubset_zero sig hsig] at hv
        exact Bool.noConfusion hv
      · exact fun hv => hv.2
    have hperm : List.Perm c.2.toList
        ((List.range m.masks.length).filter
          (fun j => maskSubset sig (m.masks.getD j 0))) :=
      (List.perm_ext_iff_of_nodup (SparseSet.nodup_toList _ hwf)
        ((List.nodup_range _).filter _)).2 hmem
    have hlen := hperm.length_eq
    rw [SparseSet.length_toList _ hwf] at hlen
    rw [hlen, ← List.countP_eq_length_filter, ← countP_eq_countP_range]

theorem resolve_cache_creates (m : EntityManager α) (sig : Nat)
    (hmiss : m.contains_cache_for sig = false) :
    (m.resolve_cache_for sig).contains_cache_for sig = true ∧
      (m.resolve_cache_for sig).number_of_entities_with sig =
        m.masks.countP (fun mask => maskSubset sig mask) := by
  have hnone : m.index_caches.find? (fun c => c.1 == sig) = none := by
    rw [contains_cache_for] at hmiss
    cases hf : m.index_caches.find? (fun c => c.1 == sig) with
    | none => rfl
    | some c =>
      rw [hf] at hmiss
      exact Bool.noConfusion hmiss
  have hres : m.resolve_cache_for sig = m.create_cache_for sig := by
    rw [resolve_cache_for, if_neg (by rw [hmiss]; exact Bool.false_ne_true)]
  have hfind2 : (m.create_cache_for sig).index_caches.find? (fun c => c.1 == sig) =
      some (sig, (List.range m.masks.length).foldl
        (fun s i => if maskSubset sig (m.masks.getD i 0) then s.insert i else s)
        SparseSet.empty) := by
    show (m.index_caches ++ [(sig, (List.range m.masks.length).foldl
        (fun s i => if maskSubset sig (m.masks.getD i 0) then s.insert i else s)
        SparseSet.empty)]).find? (fun c => c.1 == sig) = _
    rw [find?_append_of_none _ _ _ hnone]
    exact List.find?_cons_of_pos _ (beq_self_eq_true sig)
  constructor
  · rw [hres, contains_cache_for, hfind2]
    rfl
  · rw [hres]
    have hstep : (m.create_cache_for sig).number_of_entities_with sig =
        ((List.range m.masks.length).foldl
          (fun s i => if maskSubset sig (m.masks.getD i 0) then s.insert i else s)
          SparseSet.empty).size := by
      show (match (m.create_cache_for sig).index_caches.find? (fun c => c.1 == sig) with
        | some c => c.2.size
        | none => (m.create_cache_for sig).masks.countP fun mask => maskSubset sig mask) = _
      rw [hfind2]
    rw [hstep, buildCache_size, ← countP_eq_countP_range]

theorem update_one_versions_getD (m : EntityManager α) (j i : Nat) :
    (update_one m j).index_versions.getD i 0 =
      if i = j ∧ i < m.index_versions.length
      then m.index_versions.getD i 0 + 1 else m.index_versions.getD i 0 := by
  show (m.index_versions.set j (m.index_versions.getD j 0 + 1)).getD i 0 = _
  by_cases hij : i = j
  · subst hij
    by_cases hlen : i < m.index_versions.length
    · rw [getD_set_eq _ _ _ _ hlen, if_pos ⟨rfl, hlen⟩]
    · rw [List.set_eq_of_length_le (by omega), if_neg (fun hh => hlen hh.2)]
  · rw [getD_set_ne _ _ _ _ _ (fun hh => hij hh.symm), if_neg (fun hh => hij hh.1)]

theorem foldl_update_versions (L : List Nat) (m : EntityManager α) (i : Nat) :
    (L.foldl update_one m).index_versions.getD i 0 =
      m.index_versions.getD i 0 +
        (if i < m.index_versions.length then L.count i else 0) := by
  induction L generalizing m with
  | nil => simp
  | cons j L ih =>
    rw [List.foldl_cons, ih]
    have hvl : (update_one m j).index_versions.length = m.index_versions.length := by
      show (m.index_versions.set j _).length = _
      simp
    rw [hvl, update_one_versions_getD]
    have hcount : (j :: L).count i = L.count i + (if i = j then 1 else 0) := by
      rw [List.count_cons]
      by_cases hij : i = j
      · rw [if_pos (show (j == i) = true by rw [hij]; exact beq_self_eq_true j), if_pos hij]
      · rw [if_neg (fun hh : (j == i) = true => hij (beq_iff_eq.1 hh).symm), if_neg hij]
    rw [hcount]
    by_cases hij : i = j
    · by_cases hlen : i < m.index_versions.length
      · rw [if_pos ⟨hij, hlen⟩, if_pos hlen, if_pos hlen, if_pos hij]
        omega
      · rw [if_neg (fun hh => hlen hh.2), if_neg hlen, if_neg hlen]
    · by_cases hlen : i < m.index_versions.length
      · rw [if_neg (fun hh => hij hh.1), if_pos hlen, if_pos hlen, if_neg hij]
        omega
      · rw [if_neg (fun hh => hij hh.1), if_neg hlen, if_neg hlen]

theorem update_versions_getD (m : EntityManager α) (i : Nat) :
    m.update.index_versions.getD i 0 =
      m.index_versions.getD i 0 +
        (if i < m.index_versions.length then m.indices_to_destroy.toList.count i else 0) := by
  show (m.indices_to_destroy.toList.foldl update_one m).index_versions.getD i 0 = _
  exact foldl_update_versions _ m i

theorem set_getD_self_list {β : Type _} (l : List β) (i : Nat) (d : β) (h : i < l.length) :
    l.set i (l.getD i d) = l := by
  apply List.ext_getElem?
  intro n
  by_cases hn : n = i
  · subst hn
    have h1 : (l.set n (l.getD n d))[n]? = some (l.getD n d) := by
      simp [List.getElem?_set_self', h]
    rw [h1, getD_eq_getElem _ _ _ h, List.getElem?_eq_getElem h]
  · rw [List.getElem?_set_ne (fun hh => hn hh.symm)]

end EntityManager

/-! ### Claim C7: SparseSet refinement -/

/-- C7: SparseSet refines a finite set of nonnegative integers: along every
sequence of `insert(v)` (precondition: not present) and `erase(v)`
(precondition: present) operations, `contains` decides exactly current
membership, `size()` equals the number of members, and iterating
`begin()..end()` (`dense[0..n)`) yields exactly the present members, each
once. -/
theorem sparse_set_refines_finite_set (ops : List SOp)
    (h : svalidTrace SparseSet.empty ops = true) :
    (∀ v, (srun ops).contains v = true ↔ v ∈ smodel ops) ∧
      (srun ops).size = (smodel ops).card ∧
      (srun ops).toList.Nodup ∧
      (∀ v, v ∈ (srun ops).toList ↔ v ∈ smodel ops) := by
  have habs : ∀ v, (SparseSet.empty.contains v = true) ↔ v ∈ (∅ : Finset Nat) := by
    intro v
    rw [SparseSet.contains_empty]
    simp
  obtain ⟨hwf, hc, hsz⟩ := srun_spec ops SparseSet.empty ∅ SparseSet.wf_empty habs rfl h
  refine ⟨hc, hsz, SparseSet.nodup_toList _ hwf, ?_⟩
  intro v
  show v ∈ (ops.foldl sstep SparseSet.empty).toList ↔ v ∈ smodelFrom ∅ ops
  rw [SparseSet.mem_toList_iff _ hwf v]
  exact hc v

/-- C7 witness: the concrete scenario of the claim — insert 1..6, erase 4, 3, 1. -/
theorem sparse_set_refines_finite_set_witness :
    svalidTrace SparseSet.empty c7ops = true ∧
      ((∀ v, (srun c7ops).contains v = true ↔ v ∈ smodel c7ops) ∧
        (srun c7ops).size = (smodel c7ops).card ∧
        (srun c7ops).toList.Nodup ∧
        (∀ v, v ∈ (srun c7ops).toList ↔ v ∈ smodel c7ops)) :=
  ⟨by decide, sparse_set_refines_finite_set c7ops (by decide)⟩

/-! ### Claim C8: component-family bound -/

theorem assignFamilies_eq (n : Nat) : assignFamilies n = (List.range n, n) := by
  induction n with
  | zero => rfl
  | succ k ih =>
    rw [assignFamilies, List.range_succ, List.foldl_append]
    rw [assignFamilies] at ih
    rw [ih]
    simp [List.range_succ]

/-- C8: registering exactly `MAX_COMPONENTS` (128) distinct component types
succeeds: every assigned family id passes the registration assertion and the
ids are 0..127, distinct, assigned monotonically at first use. The 129th
distinct type is assigned id 128, which fails the assertion
`family_id < MAX_COMPONENTS` and aborts. -/
theorem component_family_bound :
    (assignFamilies MAX_COMPONENTS).1 = List.range MAX_COMPONENTS ∧
      (∀ id ∈ (assignFamilies MAX_COMPONENTS).1, familyAssertOk id = true) ∧
      (assignFamilies MAX_COMPONENTS).1.Nodup ∧
      List.Pairwise (· < ·) (assignFamilies MAX_COMPONENTS).1 ∧
      (assignFamilies (MAX_COMPONENTS + 1)).1.getD MAX_COMPONENTS 0 = MAX_COMPONENTS ∧
      familyAssertOk
        ((assignFamilies (MAX_COMPONENTS + 1)).1.getD MAX_COMPONENTS 0) = false := by
  have h128 := assignFamilies_eq MAX_COMPONENTS
  have h129 := assignFamilies_eq (MAX_COMPONENTS + 1)
  rw [h128, h129]
  have hlast : (List.range (MAX_COMPONENTS + 1)).getD MAX_COMPONENTS 0 = MAX_COMPONENTS := by
    rw [List.range_succ]
    have hlen : (List.range MAX_COMPONENTS).length = MAX_COMPONENTS := List.length_range _
    rw [← hlen]
    exact getD_concat_length _ _ _
  refine ⟨rfl, ?_, List.nodup_range _, List.pairwise_lt_range _, hlast, ?_⟩
  · intro id hid
    rw [List.mem_range] at hid
    rw [familyAssertOk]
    exact decide_eq_true hid
  · rw [hlast]
    decide

/-! ### Claim C9: ordering of mask write and pool growth in add_component -/

/-- C9 counterexample: the claim says the pool is grown and the component
inserted before the mask bit is set. In the source (entity.inl 219-241) the
mask bit is set by the first statement (line 223), so in the state where the
pool-growth statements run the mask bit is already set while the pool is
untouched (here: still empty), and `add_component` is exactly the composition
mask-step, then pool-step, then cache-step. -/
theorem add_component_mask_set_first :
    maskTest ((c9m.add_component_mask 0 0).masks.getD 0 0) 0 = true ∧
      (c9m.add_component_mask 0 0).component_pools = c9m.component_pools ∧
      ((c9m.add_component_mask 0 0).component_pools.getD 0 []).length = 0 ∧
      c9m.add_component 0 0 7 =
        EntityManager.add_component_caches
          (EntityManager.add_component_pool (c9m.add_component_mask 0 0) 0 0 7) 0 0 :=
  ⟨by decide, rfl, by decide, rfl⟩

/-- C9 amended: in `add_component`, the mask bit is set first; at the point
where the pool is grown the bit is already set (so on allocation failure
during growth the mask/pool coherence invariant would not hold). -/
theorem add_component_sets_mask_before_pool (m : EntityManager Nat) (f i : Nat) (x : Nat)
    (h : i < m.masks.length) :
    maskTest ((m.add_component_mask f i).masks.getD i 0) f = true ∧
      (m.add_component_mask f i).component_pools = m.component_pools ∧
      m.add_component f i x =
        EntityManager.add_component_caches
          (EntityManager.add_component_pool (m.add_component_mask f i) f i x) f i := by
  refine ⟨?_, rfl, rfl⟩
  show maskTest ((m.masks.set i (maskSet (m.masks.getD i 0) f)).getD i 0) f = true
  rw [getD_set_eq _ _ _ _ h]
  exact testBit_maskSet_self _ _

/-- C9 amended witness. -/
theorem add_component_sets_mask_before_pool_witness :
    0 < c9m.masks.length ∧
      (maskTest ((c9m.add_component_mask 0 0).masks.getD 0 0) 0 = true ∧
        (c9m.add_component_mask 0 0).component_pools = c9m.component_pools ∧
        c9m.add_component 0 0 9 =
          EntityManager.add_component_caches
            (EntityManager.add_component_pool (c9m.add_component_mask 0 0) 0 0 9) 0 0) :=
  ⟨by decide, add_component_sets_mask_before_pool c9m 0 0 9 (by decide)⟩

/-! ### Claim C1: query-cache coherence -/

/-- C1: query-cache coherence: after every sequence of public EntityManager
calls that runs without assertion failure, every cached signature's SparseSet
contains exactly the slot indices `i` with `(masks[i] AND S) == S`; this holds
across add_component, remove_component, destroy and the flush in update(). -/
theorem cache_coherence_invariant (ops : List (Op Nat))
    (h : EntityManager.validTrace (EntityManager.empty : EntityManager Nat) ops = true) :
    ∀ c ∈ (EntityManager.run ops).index_caches, ∀ i,
      c.2.contains i = (((EntityManager.run ops).masks.getD i 0 &&& c.1) == c.1) :=
  fun c hc i => (EntityManager.inv_run ops h).cache_coh c hc i

/-- C1 witness: a concrete trace exercising add, remove, destroy, update and
cache creation. -/
theorem cache_coherence_invariant_witness :
    EntityManager.validTrace (EntityManager.empty : EntityManager Nat) c1ops = true ∧
      (∀ c ∈ (EntityManager.run c1ops).index_caches, ∀ i,
        c.2.contains i = (((EntityManager.run c1ops).masks.getD i 0 &&& c.1) == c.1)) :=
  ⟨by decide, cache_coherence_invariant c1ops (by decide)⟩

/-! ### Claim C2: deferred-destruction lifecycle -/

/-- C2: after destroy(h) and before update(), every handle aliasing the slot
is still valid and the slot is marked for destruction; the next update()
increments the slot's version, so every handle that aliased the slot is
invalid afterwards. -/
theorem deferred_destruction_lifecycle (ops : List (Op Nat)) (i v : Nat)
    (h : EntityManager.validTrace (EntityManager.empty : EntityManager Nat) ops = true)
    (hlive : (EntityManager.run ops).live i v = true) :
    (∀ v', (EntityManager.run ops).valid_id i v' = true →
      ((EntityManager.run ops).destroy i).valid_id i v' = true) ∧
      ((EntityManager.run ops).destroy i).marked_for_destruction i = true ∧
      (EntityManager.run ops).index_versions.getD i 0 <
        ((EntityManager.run ops).destroy i).update.index_versions.getD i 0 ∧
      (∀ v', (EntityManager.run ops).valid_id i v' = true →
        ((EntityManager.run ops).destroy i).update.valid_id i v' = false) := by
  have hinv := EntityManager.inv_run ops h
  obtain ⟨hvlt, hvv, hfree⟩ := EntityManager.live_spec _ i v hlive
  have hmlt : i < (EntityManager.run ops).masks.length := by
    rw [← hinv.len_eq]
    exact hvlt
  have hinv1 := EntityManager.inv_destroy _ i hinv hmlt hfree
  have hvers1 := EntityManager.destroy_versions (EntityManager.run ops) i
  have hmarked := EntityManager.destroy_marked (EntityManager.run ops) i hinv.pend_wf
  have hcnt : 0 < ((EntityManager.run ops).destroy i).indices_to_destroy.toList.count i := by
    rw [List.count_pos_iff]
    rw [SparseSet.mem_toList_iff _ hinv1.pend_wf]
    exact hmarked
  have hvers2 := EntityManager.update_versions_getD ((EntityManager.run ops).destroy i) i
  rw [hvers1, if_pos hvlt] at hvers2
  refine ⟨?_, hmarked, ?_, ?_⟩
  · intro v' hv'
    simp only [EntityManager.valid_id] at hv' ⊢
    rw [hvers1]
    exact hv'
  · rw [hvers2]
    omega
  · intro v' hv'
    simp only [EntityManager.valid_id] at hv' ⊢
    rw [beq_iff_eq] at hv'
    rw [hvers2, beq_eq_false_iff_ne]
    omega

/-- C2 witness: create two entities, give the second a component, then
destroy and flush it. -/
theorem deferred_destruction_lifecycle_witness :
    EntityManager.validTrace (EntityManager.empty : EntityManager Nat) c2ops = true ∧
      (EntityManager.run c2ops).live 1 1 = true ∧
      ((∀ v', (EntityManager.run c2ops).valid_id 1 v' = true →
        ((EntityManager.run c2ops).destroy 1).valid_id 1 v' = true) ∧
        ((EntityManager.run c2ops).destroy 1).marked_for_destruction 1 = true ∧
        (EntityManager.run c2ops).index_versions.getD 1 0 <
          ((EntityManager.run c2ops).destroy 1).update.index_versions.getD 1 0 ∧
        (∀ v', (EntityManager.run c2ops).valid_id 1 v' = true →
          ((EntityManager.run c2ops).destroy 1).update.valid_id 1 v' = false)) :=
  ⟨by decide, by decide, deferred_destruction_lifecycle c2ops 1 1 (by decide) (by decide)⟩

/-! ### Claim C3: lazy cache creation -/

/-- C3 counterexample: with no cache for signature 1, calling
`number_of_entities_with` (a const member: the state is unchanged) returns the
right count but creates no cache entry — `contains_cache_for` is still false
afterwards, contrary to the claim. -/
theorem number_of_entities_with_creates_no_cache :
    EntityManager.contains_cache_for c3m 1 = false ∧
      c3m.number_of_entities_with 1 = 1 ∧
      c3m.step (Op.count 1) = c3m ∧
      EntityManager.contains_cache_for (c3m.step (Op.count 1)) 1 = false :=
  ⟨by decide, by decide, rfl, by decide⟩

/-- C3 amended: `number_of_entities_with` with an unseen signature S does not
create a cache entry (the call leaves the state unchanged) and returns the
count by scanning the masks; the cache entry for S is created by
`for_entities_with`/`par_for_entities_with` (modelled by `resolve_cache_for`),
after which `contains_cache_for S` is true and the cached count equals the
scanned count. -/
theorem lazy_cache_creation_amended (m : EntityManager Nat) (sig : Nat)
    (hmiss : m.contains_cache_for sig = false) :
    m.step (Op.count sig) = m ∧
      m.number_of_entities_with sig = m.masks.countP (fun mask => maskSubset sig mask) ∧
      (m.resolve_cache_for sig).contains_cache_for sig = true ∧
      (m.resolve_cache_for sig).number_of_entities_with sig =
        m.number_of_entities_with sig := by
  have hnone : m.index_caches.find? (fun c => c.1 == sig) = none := by
    rw [EntityManager.contains_cache_for] at hmiss
    cases hf : m.index_caches.find? (fun c => c.1 == sig) with
    | none => rfl
    | some c =>
      rw [hf] at hmiss
      exact Bool.noConfusion hmiss
  have hval : m.number_of_entities_with sig =
      m.masks.countP (fun mask => maskSubset sig mask) := by
    show (match m.index_caches.find? (fun c : Nat × SparseSet => c.1 == sig) with
      | some c => c.2.size
      | none => m.masks.countP fun mask => maskSubset sig mask) = _
    rw [hnone]
  obtain ⟨h1, h2⟩ := EntityManager.resolve_cache_creates m sig hmiss
  exact ⟨rfl, hval, h1, by rw [h2, hval]⟩

/-- C3 amended witness. -/
theorem lazy_cache_creation_amended_witness :
    EntityManager.contains_cache_for c3m 1 = false ∧
      (c3m.step (Op.count 1) = c3m ∧
        c3m.number_of_entities_with 1 = c3m.masks.countP (fun mask => maskSubset 1 mask) ∧
        (c3m.resolve_cache_for 1).contains_cache_for 1 = true ∧
        (c3m.resolve_cache_for 1).number_of_entities_with 1 =
          c3m.number_of_entities_with 1) :=
  ⟨by decide, lazy_cache_creation_amended c3m 1 (by decide)⟩

/-! ### Claim C4: add/remove round trip -/

/-- C4: for a valid entity that does not own component type C (family f),
add followed immediately by remove restores the entity's component mask and
`number_of_entities_with<C>` (signature `2^f`), regardless of which caches
exist. -/
theorem add_remove_round_trip (ops : List (Op Nat)) (f i x : Nat)
    (h : EntityManager.validTrace (EntityManager.empty : EntityManager Nat) ops = true)
    (hpre : (EntityManager.run ops).pre (Op.add f i x) = true) :
    (((EntityManager.run ops).step (Op.add f i x)).step
        (Op.remove f i)).component_mask_for i =
      (EntityManager.run ops).component_mask_for i ∧
      (((EntityManager.run ops).step (Op.add f i x)).step
          (Op.remove f i)).number_of_entities_with (2 ^ f) =
        (EntityManager.run ops).number_of_entities_with (2 ^ f) := by
  have hinv := EntityManager.inv_run ops h
  have hpre' := hpre
  simp only [EntityManager.pre, Bool.and_eq_true, decide_eq_true_eq, Bool.not_eq_true',
    decide_eq_false_iff_not] at hpre'
  obtain ⟨hlt, hfree, hbit, hf⟩ := hpre'
  have hm1masks : ((EntityManager.run ops).step (Op.add f i x)).masks =
      (EntityManager.run ops).masks.set i
        (maskSet ((EntityManager.run ops).masks.getD i 0) f) := rfl
  have hm1len : ((EntityManager.run ops).step (Op.add f i x)).masks.length =
      (EntityManager.run ops).masks.length := by
    rw [hm1masks]
    simp
  have hm1get : ((EntityManager.run ops).step (Op.add f i x)).masks.getD i 0 =
      maskSet ((EntityManager.run ops).masks.getD i 0) f := by
    rw [hm1masks]
    exact getD_set_eq _ _ _ _ hlt
  have hm1free : ((EntityManager.run ops).step (Op.add f i x)).free_indices =
      (EntityManager.run ops).free_indices := rfl
  have hbit1 : maskTest (((EntityManager.run ops).step (Op.add f i x)).masks.getD i 0) f
      = true := by
    rw [hm1get]
    exact testBit_maskSet_self _ _
  have hpre2 : ((EntityManager.run ops).step (Op.add f i x)).pre (Op.remove f i) = true := by
    simp only [EntityManager.pre, Bool.and_eq_true, decide_eq_true_eq, Bool.not_eq_true',
      decide_eq_false_iff_not]
    refine ⟨by rw [hm1len]; exact hlt, ?_, hbit1⟩
    rw [hm1free]
    exact hfree
  have hinv2 := EntityManager.inv_step _ (Op.remove f i)
    (EntityManager.inv_step _ (Op.add f i x) hinv hpre) hpre2
  have hmasks2 : (((EntityManager.run ops).step (Op.add f i x)).step
      (Op.remove f i)).masks = (EntityManager.run ops).masks := by
    have hrw : (((EntityManager.run ops).step (Op.add f i x)).step
        (Op.remove f i)).masks =
        ((EntityManager.run ops).step (Op.add f i x)).masks.set i
          (maskReset (((EntityManager.run ops).step (Op.add f i x)).masks.getD i 0) f) := rfl
    rw [hrw, hm1get, maskReset_maskSet _ _ hbit, hm1masks, List.set_set]
    exact EntityManager.set_getD_self_list (EntityManager.run ops).masks i 0 hlt
  constructor
  · show (((EntityManager.run ops).step (Op.add f i x)).step
        (Op.remove f i)).masks.getD i 0 = (EntityManager.run ops).masks.getD i 0
    rw [hmasks2]
  · have hsig : (2 : Nat) ^ f ≠ 0 := (Nat.two_pow_pos f).ne'
    rw [EntityManager.number_of_entities_with_eq _ hinv2 _ hsig,
      EntityManager.number_of_entities_with_eq _ hinv _ hsig, hmasks2]

/-- C4 witness: two entities, a cache for family 0, round trip of family 1 on
entity 0. -/
theorem add_remove_round_trip_witness :
    EntityManager.validTrace (EntityManager.empty : EntityManager Nat) c4ops = true ∧
      (EntityManager.run c4ops).pre (Op.add 1 0 9) = true ∧
      ((((EntityManager.run c4ops).step (Op.add 1 0 9)).step
          (Op.remove 1 0)).component_mask_for 0 =
        (EntityManager.run c4ops).component_mask_for 0 ∧
        (((EntityManager.run c4ops).step (Op.add 1 0 9)).step
            (Op.remove 1 0)).number_of_entities_with (2 ^ 1) =
          (EntityManager.run c4ops).number_of_entities_with (2 ^ 1)) :=
  ⟨by decide, by decide, add_remove_round_trip c4ops 1 0 9 (by decide) (by decide)⟩

/-! ### Claim C5: entity copying -/

/-- C5: for a valid entity, create_copy_of returns a new valid handle on a
fresh slot (a brand-new slot or one popped from the free stack, never the
source's slot) whose component mask equals the source's; for every family in
that mask the stored component value of the clone equals the source's, and the
clone's slot is a member of every existing query cache whose signature is a
subset of the copied mask (the set of caches is unchanged up to their
signatures). -/
theorem entity_copying (ops : List (Op Nat)) (orig v : Nat)
    (h : EntityManager.validTrace (EntityManager.empty : EntityManager Nat) ops = true)
    (hlive : (EntityManager.run ops).live orig v = true) :
    ((EntityManager.run ops).create_copy_of orig).2.1 ≠ orig ∧
      (((EntityManager.run ops).create_copy_of orig).2.1 =
          (EntityManager.run ops).masks.length ∨
        ((EntityManager.run ops).create_copy_of orig).2.1 ∈
          (EntityManager.run ops).free_indices) ∧
      ((EntityManager.run ops).create_copy_of orig).1.valid_id
        ((EntityManager.run ops).create_copy_of orig).2.1
        ((EntityManager.run ops).create_copy_of orig).2.2 = true ∧
      ((EntityManager.run ops).create_copy_of orig).1.component_mask_for
        ((EntityManager.run ops).create_copy_of orig).2.1 =
        (EntityManager.run ops).component_mask_for orig ∧
      (∀ f, ((EntityManager.run ops).component_mask_for orig).testBit f = true →
        EntityManager.poolAt
          (((EntityManager.run ops).create_copy_of orig).1.component_pools.getD f [])
          ((EntityManager.run ops).create_copy_of orig).2.1 =
        EntityManager.poolAt
          (((EntityManager.run ops).create_copy_of orig).1.component_pools.getD f [])
          orig) ∧
      ((EntityManager.run ops).create_copy_of orig).1.index_caches.map Prod.fst =
        (EntityManager.run ops).index_caches.map Prod.fst ∧
      (∀ c ∈ ((EntityManager.run ops).create_copy_of orig).1.index_caches,
        maskSubset c.1 ((EntityManager.run ops).component_mask_for orig) = true →
          c.2.contains ((EntityManager.run ops).create_copy_of orig).2.1 = true) := by
  have hinv := EntityManager.inv_run ops h
  obtain ⟨hvlt, _, hfree⟩ := EntityManager.live_spec _ orig v hlive
  obtain ⟨_, hneq, hor, hmaskclone, hmaskorig, hvalid, hpools, hkeys, hcaches⟩ :=
    EntityManager.create_copy_of_spec (EntityManager.run ops) orig hinv hvlt hfree
  refine ⟨hneq, hor, hvalid, hmaskclone, ?_, hkeys, hcaches⟩
  intro f hf
  obtain ⟨h1, h2⟩ := hpools f hf
  rw [h1, ← h2]

/-- C5 witness: copy an entity that owns two components, with two caches
present. -/
theorem entity_copying_witness :
    EntityManager.validTrace (EntityManager.empty : EntityManager Nat) c5ops = true ∧
      (EntityManager.run c5ops).live 0 1 = true ∧
      (((EntityManager.run c5ops).create_copy_of 0).2.1 ≠ 0 ∧
        (((EntityManager.run c5ops).create_copy_of 0).2.1 =
            (EntityManager.run c5ops).masks.length ∨
          ((EntityManager.run c5ops).create_copy_of 0).2.1 ∈
            (EntityManager.run c5ops).free_indices) ∧
        ((EntityManager.run c5ops).create_copy_of 0).1.valid_id
          ((EntityManager.run c5ops).create_copy_of 0).2.1
          ((EntityManager.run c5ops).create_copy_of 0).2.2 = true ∧
        ((EntityManager.run c5ops).create_copy_of 0).1.component_mask_for
          ((EntityManager.run c5ops).create_copy_of 0).2.1 =
          (EntityManager.run c5ops).component_mask_for 0 ∧
        (∀ f, ((EntityManager.run c5ops).component_mask_for 0).testBit f = true →
          EntityManager.poolAt
            (((EntityManager.run c5ops).create_copy_of 0).1.component_pools.getD f [])
            ((EntityManager.run c5ops).create_copy_of 0).2.1 =
          EntityManager.poolAt
            (((EntityManager.run c5ops).create_copy_of 0).1.component_pools.getD f [])
            0) ∧
        ((EntityManager.run c5ops).create_copy_of 0).1.index_caches.map Prod.fst =
          (EntityManager.run c5ops).index_caches.map Prod.fst ∧
        (∀ c ∈ ((EntityManager.run c5ops).create_copy_of 0).1.index_caches,
          maskSubset c.1 ((EntityManager.run c5ops).component_mask_for 0) = true →
            c.2.contains ((EntityManager.run c5ops).create_copy_of 0).2.1 = true)) :=
  ⟨by decide, by decide, entity_copying c5ops 0 1 (by decide) (by decide)⟩

/-! ### Claim C6: idempotent destroy -/

/-- C6: for a valid handle, calling destroy any number of times (k+1 calls,
including through aliases of the same slot, which share the index) before the
next update leaves the state — and hence number_of_entities_to_destroy — equal
to the single-call case. -/
theorem idempotent_destroy (ops : List (Op Nat)) (i v k : Nat)
    (h : EntityManager.validTrace (EntityManager.empty : EntityManager Nat) ops = true)
    (hlive : (EntityManager.run ops).live i v = true) :
    Nat.iterate (fun mm => EntityManager.destroy mm i) (k + 1) (EntityManager.run ops) =
      (EntityManager.run ops).destroy i ∧
      (Nat.iterate (fun mm => EntityManager.destroy mm i) (k + 1)
          (EntityManager.run ops)).number_of_entities_to_destroy =
        ((EntityManager.run ops).destroy i).number_of_entities_to_destroy := by
  obtain ⟨hvlt, _, hfree⟩ := EntityManager.live_spec _ i v hlive
  have hinv := EntityManager.inv_run ops h
  have hmlt : i < (EntityManager.run ops).masks.length := by
    rw [← hinv.len_eq]
    exact hvlt
  have heq := EntityManager.destroy_iterate (EntityManager.run ops) i hinv hmlt hfree k
  exact ⟨heq, by rw [heq]⟩

/-- C6 witness: three destroy calls on the same slot. -/
theorem idempotent_destroy_witness :
    EntityManager.validTrace (EntityManager.empty : EntityManager Nat) c6ops = true ∧
      (EntityManager.run c6ops).live 0 1 = true ∧
      (Nat.iterate (fun mm => EntityManager.destroy mm 0) (2 + 1)
          (EntityManager.run c6ops) = (EntityManager.run c6ops).destroy 0 ∧
        (Nat.iterate (fun mm => EntityManager.destroy mm 0) (2 + 1)
            (EntityManager.run c6ops)).number_of_entities_to_destroy =
          ((EntityManager.run c6ops).destroy 0).number_of_entities_to_destroy) :=
  ⟨by decide, by decide, idempotent_destroy c6ops 0 1 2 (by decide) (by decide)⟩

/-! ### Claim C10: default-constructed handle -/

/-- C10: a default-constructed Entity has a null manager pointer and the
INVALID_ID sentinel; `valid()` and the boolean conversion return false for
every possible manager dereference (the null check short-circuits, so no
manager state is consulted), and the handle compares unequal to every handle
issued by a manager (whose manager pointer is non-null). -/
theorem default_entity_invalid :
    defaultEntity.manager = none ∧ defaultEntity.uid = INVALID_ID ∧
      (∀ deref, defaultEntity.validWith deref = false) ∧
      (∀ deref, EntityHandle.boolConv deref defaultEntity = false) ∧
      (∀ p id, EntityHandle.beqE defaultEntity ⟨some p, id⟩ = false ∧
        EntityHandle.beqE ⟨some p, id⟩ defaultEntity = false) := by
  refine ⟨rfl, rfl, fun _ => rfl, fun _ => rfl, ?_⟩
  intro p id
  constructor
  · rw [EntityHandle.beqE]
    have h : (defaultEntity.manager == (some p : Option Nat)) = false := by
      rw [beq_eq_false_iff_ne]
      intro h
      exact Option.noConfusion h
    rw [h, Bool.false_and]
  · rw [EntityHandle.beqE]
    have h : ((some p : Option Nat) == defaultEntity.manager) = false := by
      rw [beq_eq_false_iff_ne]
      intro h
      exact Option.noConfusion h
    rw [h, Bool.false_and]

end Rift
